import Mathlib

/-!
Verification of the `compiler` package of a small x86-64 assembler
(`doytsujin/assembler`, file `compiler/compiler.go`).

The Go code is shallowly embedded: byte buffers become `List Nat`
(each entry a byte value), Go maps become association lists iterated in
insertion order, fallible paths return an explicit result type and Go
runtime panics (out-of-range slice indexing) are a distinguished outcome.
Machine-integer conversions (`uint32`, `byte`) are modelled with explicit
`% 2^32` / `% 2^8` arithmetic on `Int`/`Nat`.
-/

namespace Assembler

/-- Operand/token kinds consumed from the instruction stream
(`token.REGISTER`, `token.NUMBER`, `token.IDENTIFIER`). -/
inductive TokenType where
  | REGISTER
  | NUMBER
  | IDENTIFIER
deriving DecidableEq, Repr

/-- A token: kind plus literal text (`token.Token`). -/
structure Token where
  type : TokenType
  literal : String
deriving DecidableEq, Repr

/-- Parser statements drained by `Compile` (`parser.Data`, `parser.Label`,
`parser.Instruction`, `parser.Error`). -/
inductive Stmt where
  | data (name : String) (contents : List Nat)
  | label (name : String)
  | instruction (mnemonic : String) (operands : List Token)
  | error (msg : String)
deriving DecidableEq, Repr

/-- Association-list lookup, modelling a Go map read (`m[k]`, found case). -/
def lookupA {α β : Type} [DecidableEq α] : List (α × β) → α → Option β
  | [], _ => none
  | (k', v') :: rest, k => if k' = k then some v' else lookupA rest k

/-- Association-list insertion, modelling a Go map write (`m[k] = v`):
overwrites an existing binding in place, otherwise appends. -/
def insertA {α β : Type} [DecidableEq α] : List (α × β) → α → β → List (α × β)
  | [], k, v => [(k, v)]
  | (k', v') :: rest, k, v =>
      if k' = k then (k, v) :: rest else (k', v') :: insertA rest k v

/-- The `Compiler` struct's buffer/table state (output path omitted):
`code`, `data`, `dataOffsets`, `patches`, `labels`, `labelTargets`. -/
structure CompilerState where
  code : List Nat
  data : List Nat
  dataOffsets : List (String × Nat)
  patches : List (Nat × Int)
  labels : List (String × Nat)
  labelTargets : List (Nat × String)
deriving DecidableEq, Repr

/-- The state built by `New`: empty buffers and empty tables. -/
def initState : CompilerState :=
  { code := [], data := [], dataOffsets := [], patches := [],
    labels := [], labelTargets := [] }

/-- Outcome of running a compilation step: normal return, an error return
(carrying the state as mutated up to the point of the error), or a Go
runtime panic from out-of-range slice indexing. -/
inductive StepResult where
  | ok (st : CompilerState)
  | err (msg : String) (st : CompilerState)
  | panic
deriving DecidableEq, Repr

/-! ### Modelling `strconv` and `fmt` from the Go standard library -/

/-- Value of one digit character, as accepted by `strconv`'s digit loop
(restricted to the characters usable in bases up to 16). -/
def digitVal (c : Char) : Option Nat :=
  if '0' ≤ c ∧ c ≤ '9' then some (c.toNat - 48)
  else if 'a' ≤ c ∧ c ≤ 'f' then some (c.toNat - 87)
  else if 'A' ≤ c ∧ c ≤ 'F' then some (c.toNat - 55)
  else none

/-- One step of `strconv`'s digit-accumulation loop in base `b`. -/
def parseStep (b : Nat) (acc : Option Nat) (c : Char) : Option Nat :=
  acc.bind fun a =>
    match digitVal c with
    | some d => if d < b then some (a * b + d) else none
    | none => none

/-- Parse a non-empty digit string in base `b`, most significant digit
first; `none` on an invalid character (Go syntax error). -/
def parseDigits (b : Nat) (l : List Char) : Option Nat :=
  l.foldl (parseStep b) (some 0)

/-- Strip an optional leading sign, as `strconv.ParseInt` does; returns
(negative?, remaining characters). -/
def splitSign (cs : List Char) : Bool × List Char :=
  match cs with
  | [] => (false, [])
  | c :: r =>
      if c = '+' then (false, r)
      else if c = '-' then (true, r)
      else (false, c :: r)

/-- Base detection of `strconv.ParseInt` with base argument 0: `0x`/`0b`/`0o`
prefixes (requiring at least one digit after them), a bare leading `0`
meaning octal, otherwise decimal.  Returns (base, digit characters). -/
def splitBase (cs : List Char) : Nat × List Char :=
  match cs with
  | c0 :: c1 :: r =>
      if c0 = '0' then
        if (c1 = 'x' ∨ c1 = 'X') ∧ r ≠ [] then (16, r)
        else if (c1 = 'b' ∨ c1 = 'B') ∧ r ≠ [] then (2, r)
        else if (c1 = 'o' ∨ c1 = 'O') ∧ r ≠ [] then (8, r)
        else (8, c1 :: r)
      else (10, c0 :: c1 :: r)
  | r => (10, r)

/-- Models `strconv.ParseInt(s, 0, 64)`: sign, base prefix, digits, and the
signed 64-bit range check; `none` models a returned error.  (Underscore
digit separators are not modelled.) -/
def goParseIntCore (cs : List Char) : Option Int :=
  if (splitBase (splitSign cs).2).2 = [] then none
  else
    match parseDigits (splitBase (splitSign cs).2).1 (splitBase (splitSign cs).2).2 with
    | none => none
    | some n =>
        if (splitSign cs).1 then (if n ≤ 2 ^ 63 then some (-(n : Int)) else none)
        else (if n < 2 ^ 63 then some ((n : Int)) else none)

/-- `strconv.ParseInt(s, 0, 64)` on a string. -/
def goParseInt (s : String) : Option Int :=
  goParseIntCore s.data

/-- Models the value returned by `strconv.Atoi(s)` when its error is
ignored (as in `c.patches[...], _ = strconv.Atoi(...)`): base-10 parse,
0 on a syntax error, the clamped 64-bit bound on a range error. -/
def goAtoi (s : String) : Int :=
  if (splitSign s.data).2 = [] then 0
  else
    match parseDigits 10 (splitSign s.data).2 with
    | none => 0
    | some n =>
        if (splitSign s.data).1 then (if n ≤ 2 ^ 63 then -(n : Int) else -(2 ^ 63))
        else (if n < 2 ^ 63 then (n : Int) else 2 ^ 63 - 1)

/-- Little-endian decimal digits of `n`, with `fuel` bounding the
recursion depth (any `fuel ≥ n` computes all digits). -/
def decDigitsAux : Nat → Nat → List Nat
  | 0, _ => []
  | fuel + 1, n => if n = 0 then [] else n % 10 :: decDigitsAux fuel (n / 10)

/-- The character of a decimal digit. -/
def toCh (d : Nat) : Char := Char.ofNat (48 + d)

/-- The decimal numeral of `n`, most significant digit first; models
`fmt.Sprintf("%d", n)` for a non-negative value. -/
def decimalChars (n : Nat) : List Char :=
  if n = 0 then ['0'] else ((decDigitsAux n n).map toCh).reverse

/-- `fmt.Sprintf("%d", n)` for a non-negative value. -/
def decimalString (n : Nat) : String :=
  String.mk (decimalChars n)

/-- Go's `uint32(v)` conversion of a signed integer: the low 32 bits. -/
def uint32ofInt (v : Int) : Nat := (v % 4294967296).toNat

/-- Go's `byte(v)` conversion of a signed integer: the low 8 bits. -/
def uint8ofInt (v : Int) : Nat := (v % 256).toNat

/-- `binary.LittleEndian.PutUint32` into a fresh 4-byte buffer. -/
def putUint32LE (v : Nat) : List Nat :=
  [v % 256, v / 256 % 256, v / 65536 % 256, v / 16777216 % 256]

/-- The 4 little-endian bytes of `uint32(v)` for a signed `v`. -/
def leUint32OfInt (v : Int) : List Nat :=
  putUint32LE (uint32ofInt v)

/-! ### The instruction encoders -/

/-- `argToByte`: parse a literal and truncate to one byte (used by `int`). -/
def argToByte (lit : String) : Except String Nat :=
  match goParseInt lit with
  | none => .error ("unable to convert " ++ lit ++ " to number")
  | some num => .ok (uint8ofInt num)

/-- `argToByteArray`: parse a literal and encode it as 4 little-endian
bytes of its `uint32` truncation (used by `mov`, `add`, `sub`, `push`). -/
def argToByteArray (lit : String) : Except String (List Nat) :=
  match goParseInt lit with
  | none => .error ("unable to convert " ++ lit ++ " to number for register")
  | some num => .ok (putUint32LE (uint32ofInt num))

/-- The register-register opcode table of `assembleADD`, in the insertion
order of the Go source. -/
def addCodes : List ((String × String) × List Nat) :=
  [ (("rax", "rax"), [0x48, 0x01, 0xc0]),
    (("rax", "rbx"), [0x48, 0x01, 0xd8]),
    (("rax", "rcx"), [0x48, 0x01, 0xc8]),
    (("rax", "rdx"), [0x48, 0x01, 0xd0]),
    (("rbx", "rax"), [0x48, 0x01, 0xc3]),
    (("rbx", "rbx"), [0x48, 0x01, 0xdb]),
    (("rbx", "rcx"), [0x48, 0x01, 0xcb]),
    (("rbx", "rdx"), [0x48, 0x01, 0xd3]),
    (("rcx", "rax"), [0x48, 0x01, 0xc1]),
    (("rcx", "rbx"), [0x48, 0x01, 0xd9]),
    (("rcx", "rcx"), [0x48, 0x01, 0xc9]),
    (("rcx", "rdx"), [0x48, 0x01, 0xd1]),
    (("rdx", "rax"), [0x48, 0x01, 0xc2]),
    (("rdx", "rbx"), [0x48, 0x01, 0xda]),
    (("rdx", "rcx"), [0x48, 0x01, 0xca]),
    (("rdx", "rdx"), [0x48, 0x01, 0xd2]) ]

/-- The register-register opcode table of `assembleSUB`. -/
def subCodes : List ((String × String) × List Nat) :=
  [ (("rax", "rax"), [0x48, 0x29, 0xc0]),
    (("rax", "rbx"), [0x48, 0x29, 0xd8]),
    (("rax", "rcx"), [0x48, 0x29, 0xc8]),
    (("rax", "rdx"), [0x48, 0x29, 0xd0]),
    (("rbx", "rax"), [0x48, 0x29, 0xc3]),
    (("rbx", "rbx"), [0x48, 0x29, 0xdb]),
    (("rbx", "rcx"), [0x48, 0x29, 0xcb]),
    (("rbx", "rdx"), [0x48, 0x29, 0xd3]),
    (("rcx", "rax"), [0x48, 0x29, 0xc1]),
    (("rcx", "rbx"), [0x48, 0x29, 0xd9]),
    (("rcx", "rcx"), [0x48, 0x29, 0xc9]),
    (("rcx", "rdx"), [0x48, 0x29, 0xd1]),
    (("rdx", "rax"), [0x48, 0x29, 0xc2]),
    (("rdx", "rbx"), [0x48, 0x29, 0xda]),
    (("rdx", "rcx"), [0x48, 0x29, 0xca]),
    (("rdx", "rdx"), [0x48, 0x29, 0xd2]) ]

/-- The single-register opcode table of `assembleDEC`. -/
def decCodes : List (String × List Nat) :=
  [ ("rax", [0x48, 0xff, 0xc8]),
    ("rbx", [0x48, 0xff, 0xcb]),
    ("rcx", [0x48, 0xff, 0xc9]),
    ("rdx", [0x48, 0xff, 0xca]) ]

/-- The single-register opcode table of `assembleINC`. -/
def incCodes : List (String × List Nat) :=
  [ ("rax", [0x48, 0xff, 0xc0]),
    ("rbx", [0x48, 0xff, 0xc3]),
    ("rcx", [0x48, 0xff, 0xc1]),
    ("rdx", [0x48, 0xff, 0xc2]) ]

/-- `assembleADD`: table lookup keyed on both operand literals (accessing
both operands, a panic when fewer than two are present), then the
register-number fallback. -/
def assembleADD (st : CompilerState) (ops : List Token) : StepResult :=
  match ops.get? 0, ops.get? 1 with
  | some op0, some op1 =>
      match lookupA addCodes (op0.literal, op1.literal) with
      | some bytes => .ok { st with code := st.code ++ bytes }
      | none =>
          if op0.type = TokenType.REGISTER ∧ op1.type = TokenType.NUMBER then
            match argToByteArray op1.literal with
            | .error e => .err e st
            | .ok n =>
                if op0.literal = "rax" then
                  .ok { st with code := st.code ++ [0x48, 0x05] ++ n }
                else if op0.literal = "rbx" then
                  .ok { st with code := st.code ++ [0x48, 0x81, 0xc3] ++ n }
                else if op0.literal = "rcx" then
                  .ok { st with code := st.code ++ [0x48, 0x81, 0xc1] ++ n }
                else if op0.literal = "rdx" then
                  .ok { st with code := st.code ++ [0x48, 0x81, 0xc2] ++ n }
                else .err ("add " ++ op0.literal ++ ", number not implemented") st
          else .err "unhandled ADD instruction" st
  | _, _ => .panic

/-- `assembleSUB`: same structure as `assembleADD` with the sub tables. -/
def assembleSUB (st : CompilerState) (ops : List Token) : StepResult :=
  match ops.get? 0, ops.get? 1 with
  | some op0, some op1 =>
      match lookupA subCodes (op0.literal, op1.literal) with
      | some bytes => .ok { st with code := st.code ++ bytes }
      | none =>
          if op0.type = TokenType.REGISTER ∧ op1.type = TokenType.NUMBER then
            match argToByteArray op1.literal with
            | .error e => .err e st
            | .ok n =>
                if op0.literal = "rax" then
                  .ok { st with code := st.code ++ [0x48, 0x2d] ++ n }
                else if op0.literal = "rbx" then
                  .ok { st with code := st.code ++ [0x48, 0x81, 0xeb] ++ n }
                else if op0.literal = "rcx" then
                  .ok { st with code := st.code ++ [0x48, 0x81, 0xe9] ++ n }
                else if op0.literal = "rdx" then
                  .ok { st with code := st.code ++ [0x48, 0x81, 0xea] ++ n }
                else .err ("SUB " ++ op0.literal ++ ", number not implemented") st
          else .err "unhandled SUB instruction" st
  | _, _ => .panic

/-- `assembleDEC`: single-register table lookup. -/
def assembleDEC (st : CompilerState) (ops : List Token) : StepResult :=
  match ops.get? 0 with
  | none => .panic
  | some op0 =>
      match lookupA decCodes op0.literal with
      | some bytes => .ok { st with code := st.code ++ bytes }
      | none => .err "unknown argument for DEC" st

/-- `assembleINC`: single-register table lookup. -/
def assembleINC (st : CompilerState) (ops : List Token) : StepResult :=
  match ops.get? 0 with
  | none => .panic
  | some op0 =>
      match lookupA incCodes op0.literal with
      | some bytes => .ok { st with code := st.code ++ bytes }
      | none => .err "unknown argument for INC" st

/-- `assembleXOR`: if-chain on the first operand's literal. -/
def assembleXOR (st : CompilerState) (ops : List Token) : StepResult :=
  match ops.get? 0 with
  | none => .panic
  | some op0 =>
      if op0.literal = "rax" then .ok { st with code := st.code ++ [0x48, 0x31, 0xc0] }
      else if op0.literal = "rbx" then .ok { st with code := st.code ++ [0x48, 0x31, 0xdb] }
      else if op0.literal = "rcx" then .ok { st with code := st.code ++ [0x48, 0x31, 0xc9] }
      else if op0.literal = "rdx" then .ok { st with code := st.code ++ [0x48, 0x31, 0xd2] }
      else .err "unknown argument for XOR" st

/-- The register-number branch of `assembleMov`: append the register's
3-byte opcode prefix, then parse the literal (an error here returns with
the prefix already appended), record a data patch at the current code
length when `label` is set (value via `strconv.Atoi`, error discarded),
and append the 4 immediate bytes. -/
def movRegNumber (st : CompilerState) (reg lit : String) (label : Bool) : StepResult :=
  if reg = "rax" then
    match argToByteArray lit with
    | .error e => .err e { st with code := st.code ++ [0x48, 0xc7, 0xc0] }
    | .ok n =>
        if label then
          .ok { st with
                code := (st.code ++ [0x48, 0xc7, 0xc0]) ++ n,
                patches := insertA st.patches (st.code ++ [0x48, 0xc7, 0xc0]).length (goAtoi lit) }
        else .ok { st with code := (st.code ++ [0x48, 0xc7, 0xc0]) ++ n }
  else if reg = "rbx" then
    match argToByteArray lit with
    | .error e => .err e { st with code := st.code ++ [0x48, 0xc7, 0xc3] }
    | .ok n =>
        if label then
          .ok { st with
                code := (st.code ++ [0x48, 0xc7, 0xc3]) ++ n,
                patches := insertA st.patches (st.code ++ [0x48, 0xc7, 0xc3]).length (goAtoi lit) }
        else .ok { st with code := (st.code ++ [0x48, 0xc7, 0xc3]) ++ n }
  else if reg = "rcx" then
    match argToByteArray lit with
    | .error e => .err e { st with code := st.code ++ [0x48, 0xc7, 0xc1] }
    | .ok n =>
        if label then
          .ok { st with
                code := (st.code ++ [0x48, 0xc7, 0xc1]) ++ n,
                patches := insertA st.patches (st.code ++ [0x48, 0xc7, 0xc1]).length (goAtoi lit) }
        else .ok { st with code := (st.code ++ [0x48, 0xc7, 0xc1]) ++ n }
  else if reg = "rdx" then
    match argToByteArray lit with
    | .error e => .err e { st with code := st.code ++ [0x48, 0xc7, 0xc2] }
    | .ok n =>
        if label then
          .ok { st with
                code := (st.code ++ [0x48, 0xc7, 0xc2]) ++ n,
                patches := insertA st.patches (st.code ++ [0x48, 0xc7, 0xc2]).length (goAtoi lit) }
        else .ok { st with code := (st.code ++ [0x48, 0xc7, 0xc2]) ++ n }
  else .err "moving a constant (number) to an unknown register" st

/-- `assembleMov`: register-register is a silent no-op; register-number
goes to `movRegNumber`; register-identifier looks the name up in the data
table, rewrites the operand to the offset's decimal text and re-enters the
number branch with the patch flag set (the source's recursive
`assembleMov(i, true)` call, whose rewritten operand is a number).
Accessing a missing second operand after a register first operand is a
panic, as in Go. -/
def assembleMov (st : CompilerState) (ops : List Token) (label : Bool) : StepResult :=
  match ops.get? 0 with
  | none => .panic
  | some op0 =>
      if op0.type = TokenType.REGISTER then
        match ops.get? 1 with
        | none => .panic
        | some op1 =>
            if op1.type = TokenType.REGISTER then .ok st
            else if op1.type = TokenType.NUMBER then
              movRegNumber st op0.literal op1.literal label
            else if op1.type = TokenType.IDENTIFIER then
              match lookupA st.dataOffsets op1.literal with
              | some val => movRegNumber st op0.literal (decimalString val) true
              | none => .err "reference to unknown label/data" st
            else .err "unknown MOV instruction" st
      else .err "unknown MOV instruction" st

/-- `assemblePush`: the number branch reads `i.Operands[1]` although `push`
carries a single operand, so it panics with one operand present; the
identifier branch appends `0x68`, records the label target at the current
code length and appends 4 zero placeholder bytes. -/
def assemblePush (st : CompilerState) (ops : List Token) : StepResult :=
  match ops.get? 0 with
  | none => .panic
  | some op0 =>
      if op0.type = TokenType.NUMBER then
        match ops.get? 1 with
        | none => .panic
        | some op1 =>
            match argToByteArray op1.literal with
            | .error e => .err e st
            | .ok n => .ok { st with code := st.code ++ [0x68] ++ n }
      else if op0.type = TokenType.IDENTIFIER then
        .ok { st with
              labelTargets := insertA st.labelTargets (st.code ++ [0x68]).length op0.literal,
              code := (st.code ++ [0x68]) ++ [0x0, 0x0, 0x0, 0x0] }
      else .err "unknown push-type" st

/-- `compileInstruction`: dispatch on the mnemonic. -/
def compileInstruction (st : CompilerState) (mn : String) (ops : List Token) : StepResult :=
  if mn = "add" then assembleADD st ops
  else if mn = "dec" then assembleDEC st ops
  else if mn = "inc" then assembleINC st ops
  else if mn = "int" then
    match ops.get? 0 with
    | none => .panic
    | some op0 =>
        match argToByte op0.literal with
        | .error e => .err e st
        | .ok n => .ok { st with code := st.code ++ [0xcd, n] }
  else if mn = "mov" then assembleMov st ops false
  else if mn = "nop" then .ok { st with code := st.code ++ [0x90] }
  else if mn = "push" then assemblePush st ops
  else if mn = "ret" then .ok { st with code := st.code ++ [0xc3] }
  else if mn = "sub" then assembleSUB st ops
  else if mn = "xor" then assembleXOR st ops
  else .err ("unknown instruction " ++ mn) st

/-- `handleData`: append the contents to the data buffer and record the
name at the pre-append length. -/
def handleData (st : CompilerState) (name : String) (contents : List Nat) : CompilerState :=
  { st with
    data := st.data ++ contents,
    dataOffsets := insertA st.dataOffsets name st.data.length }

/-- The statement loop of `Compile`: data, label, instruction and
parser-error statements. -/
def compileStmts : List Stmt → CompilerState → StepResult
  | [], st => .ok st
  | s :: rest, st =>
      match s with
      | .data name contents => compileStmts rest (handleData st name contents)
      | .label name =>
          compileStmts rest { st with labels := insertA st.labels name st.code.length }
      | .error msg => .err ("error compiling - parser returned error " ++ msg) st
      | .instruction mn ops =>
          match compileInstruction st mn ops with
          | .ok st' => compileStmts rest st'
          | r => r

/-! ### Patch resolution (the two loops at the end of `Compile`) -/

/-- Overwrite `bs` into `code` starting at index `o`, one byte at a time
(`c.code[i+o] = x`); `none` models the Go panic when an index is out of
range. -/
def writeBytes : List Nat → Nat → List Nat → Option (List Nat)
  | code, _, [] => some code
  | code, o, b :: bs =>
      if o < code.length then writeBytes (code.set o b) (o + 1) bs else none

/-- The data-patch loop: for each recorded `(offset, value)`, compute
`0x400000 + v + len(code) + 0x40 + 2*0x38`, truncate to `uint32` and
overwrite the 4 bytes at the offset. -/
def runDataPatches : List Nat → List (Nat × Int) → Option (List Nat)
  | code, [] => some code
  | code, (o, v) :: rest =>
      match writeBytes code o
          (leUint32OfInt (0x400000 + v + (code.length : Int) + 0x40 + 2 * 0x38)) with
      | some c => runDataPatches c rest
      | none => none

/-- The label-patch loop: the label table read is a Go map read whose
missing-key case yields 0, the formula has no code-length term. -/
def runLabelPatches (labels : List (String × Nat)) :
    List Nat → List (Nat × String) → Option (List Nat)
  | code, [] => some code
  | code, (o, s) :: rest =>
      match writeBytes code o
          (putUint32LE (0x400000 + (lookupA labels s).getD 0 + 0x40 + 2 * 0x38)) with
      | some c => runLabelPatches labels c rest
      | none => none

/-- Patch resolution with explicit iteration orders for the two maps
(Go map iteration order is unspecified). -/
def resolveWith (st : CompilerState) (ps : List (Nat × Int)) (ts : List (Nat × String)) :
    Option CompilerState :=
  match runDataPatches st.code ps with
  | none => none
  | some c1 =>
      match runLabelPatches st.labels c1 ts with
      | none => none
      | some c2 => some { st with code := c2 }

/-- Patch resolution in the model's canonical (insertion) order. -/
def resolve (st : CompilerState) : Option CompilerState :=
  resolveWith st st.patches st.labelTargets

/-- The four supported general-purpose registers. -/
def gpRegs : List String := ["rax", "rbx", "rcx", "rdx"]

/-- The 4-byte window of the code buffer at a patch offset. -/
def window (code : List Nat) (o : Nat) : List Nat :=
  (code.drop o).take 4

/-- All patch offsets (data references and label references). -/
def allPatchOffsets (st : CompilerState) : List Nat :=
  st.patches.map Prod.fst ++ st.labelTargets.map Prod.fst

end Assembler

namespace Assembler

/-! ### Properties of the in-place write machinery -/

/-- Sequential application of a list of (offset, bytes) overwrites. -/
def applyWrites : List Nat → List (Nat × List Nat) → Option (List Nat)
  | code, [] => some code
  | code, (o, bs) :: ws =>
      match writeBytes code o bs with
      | some c => applyWrites c ws
      | none => none

/-- Two writes with disjoint windows. -/
def WDisj (w w' : Nat × List Nat) : Prop :=
  w.1 + w.2.length ≤ w'.1 ∨ w'.1 + w'.2.length ≤ w.1

theorem writeBytes_length : ∀ (bs code : List Nat) (o : Nat) (c : List Nat),
    writeBytes code o bs = some c → c.length = code.length := by
  intro bs
  induction bs with
  | nil =>
      intro code o c h
      simp only [writeBytes, Option.some.injEq] at h
      rw [← h]
  | cons b bs ih =>
      intro code o c h
      simp only [writeBytes] at h
      by_cases ho : o < code.length
      · rw [if_pos ho] at h
        have := ih _ _ _ h
        rw [this, List.length_set]
      · rw [if_neg ho] at h
        cases h

theorem writeBytes_some : ∀ (bs code : List Nat) (o : Nat),
    o + bs.length ≤ code.length → ∃ c, writeBytes code o bs = some c := by
  intro bs
  induction bs with
  | nil => intro code o _; exact ⟨code, rfl⟩
  | cons b bs ih =>
      intro code o h
      simp only [List.length_cons] at h
      have ho : o < code.length := by omega
      obtain ⟨c, hc⟩ := ih (code.set o b) (o + 1) (by rw [List.length_set]; omega)
      exact ⟨c, by simp only [writeBytes, if_pos ho]; exact hc⟩

theorem writeBytes_get?_out : ∀ (bs code : List Nat) (o : Nat) (c : List Nat) (i : Nat),
    writeBytes code o bs = some c → (i < o ∨ o + bs.length ≤ i) →
    c.get? i = code.get? i := by
  intro bs
  induction bs with
  | nil =>
      intro code o c i h _
      simp only [writeBytes, Option.some.injEq] at h
      rw [← h]
  | cons b bs ih =>
      intro code o c i h hi
      simp only [List.length_cons] at hi
      simp only [writeBytes] at h
      by_cases ho : o < code.length
      · rw [if_pos ho] at h
        have h2 := ih _ _ _ i h (by omega)
        rw [h2, List.get?_set_ne]
        omega
      · rw [if_neg ho] at h; cases h

theorem writeBytes_get?_in : ∀ (bs code : List Nat) (o : Nat) (c : List Nat) (k : Nat),
    writeBytes code o bs = some c → k < bs.length →
    c.get? (o + k) = bs.get? k := by
  intro bs
  induction bs with
  | nil => intro _ _ _ k _ hk; simp at hk
  | cons b bs ih =>
      intro code o c k h hk
      simp only [writeBytes] at h
      by_cases ho : o < code.length
      · rw [if_pos ho] at h
        cases k with
        | zero =>
            have h2 := writeBytes_get?_out bs _ _ _ o h (by omega)
            rw [Nat.add_zero, h2, List.get?_set_eq_of_lt _ ho]
            rfl
        | succ k =>
            have h2 := ih _ _ _ k h (by simp only [List.length_cons] at hk; omega)
            have : o + (k + 1) = (o + 1) + k := by omega
            rw [this, h2]
            rfl
      · rw [if_neg ho] at h; cases h

theorem applyWrites_some : ∀ (ws : List (Nat × List Nat)) (code : List Nat),
    (∀ w ∈ ws, w.1 + w.2.length ≤ code.length) →
    ∃ c, applyWrites code ws = some c ∧ c.length = code.length := by
  intro ws
  induction ws with
  | nil => intro code _; exact ⟨code, rfl, rfl⟩
  | cons w ws ih =>
      intro code hb
      obtain ⟨o, bs⟩ := w
      obtain ⟨c1, hc1⟩ := writeBytes_some bs code o (hb _ (List.mem_cons_self _ _))
      have hlen := writeBytes_length bs code o c1 hc1
      obtain ⟨c, hc, hcl⟩ := ih c1 (by intro w hw; rw [hlen]; exact hb w (List.mem_cons_of_mem _ hw))
      exact ⟨c, by simp only [applyWrites, hc1]; exact hc, by rw [hcl, hlen]⟩

theorem applyWrites_get?_out : ∀ (ws : List (Nat × List Nat)) (code : List Nat) (c : List Nat) (i : Nat),
    applyWrites code ws = some c →
    (∀ w ∈ ws, i < w.1 ∨ w.1 + w.2.length ≤ i) →
    c.get? i = code.get? i := by
  intro ws
  induction ws with
  | nil =>
      intro code c i h _
      simp only [applyWrites, Option.some.injEq] at h
      rw [← h]
  | cons w ws ih =>
      intro code c i h hi
      obtain ⟨o, bs⟩ := w
      simp only [applyWrites] at h
      cases hw : writeBytes code o bs with
      | none => rw [hw] at h; cases h
      | some c1 =>
          rw [hw] at h
          have h1 := ih c1 c i h (fun w hmem => hi w (List.mem_cons_of_mem _ hmem))
          rw [h1]
          exact writeBytes_get?_out bs code o c1 i hw (hi _ (List.mem_cons_self _ _))

theorem applyWrites_get?_in : ∀ (ws : List (Nat × List Nat)) (code : List Nat) (c : List Nat)
    (o : Nat) (bs : List Nat) (k : Nat),
    List.Pairwise WDisj ws → applyWrites code ws = some c → (o, bs) ∈ ws → k < bs.length →
    c.get? (o + k) = bs.get? k := by
  intro ws
  induction ws with
  | nil => intro _ _ _ _ _ _ _ hmem; cases hmem
  | cons w ws ih =>
      intro code c o bs k hd h hmem hk
      obtain ⟨o', bs'⟩ := w
      simp only [applyWrites] at h
      cases hw : writeBytes code o' bs' with
      | none => rw [hw] at h; cases h
      | some c1 =>
          rw [hw] at h
          rcases List.mem_cons.mp hmem with heq | hmem'
          · injection heq with e1 e2
            subst e1; subst e2
            have h1 : c.get? (o + k) = c1.get? (o + k) := by
              apply applyWrites_get?_out ws c1 c (o + k) h
              intro w hw2
              have hdis := (List.pairwise_cons.mp hd).1 w hw2
              simp only [WDisj] at hdis
              rcases hdis with hl | hr
              · left; omega
              · right; omega
            rw [h1]
            exact writeBytes_get?_in bs code o c1 k hw hk
          · exact ih c1 c o bs k (List.pairwise_cons.mp hd).2 h hmem' hk

theorem applyWrites_perm : ∀ (ws ws' : List (Nat × List Nat)) (code : List Nat),
    List.Pairwise WDisj ws →
    (∀ w ∈ ws, w.1 + w.2.length ≤ code.length) →
    ws'.Perm ws →
    applyWrites code ws' = applyWrites code ws := by
  intro ws ws' code hd hb hperm
  have hd' : List.Pairwise WDisj ws' :=
    (List.Perm.pairwise_iff (fun hxy => Or.symm hxy) hperm).mpr hd
  have hb' : ∀ w ∈ ws', w.1 + w.2.length ≤ code.length :=
    fun w hw => hb w (hperm.mem_iff.mp hw)
  obtain ⟨c, hc, hcl⟩ := applyWrites_some ws code hb
  obtain ⟨c', hc', hcl'⟩ := applyWrites_some ws' code hb'
  rw [hc, hc']
  congr 1
  apply List.ext_get?
  intro i
  by_cases hcov : ∃ w ∈ ws, w.1 ≤ i ∧ i < w.1 + w.2.length
  · obtain ⟨⟨o, bs⟩, hmem, h1, h2⟩ := hcov
    have hidx : i = o + (i - o) := by omega
    have hk : i - o < bs.length := by simp only at h1 h2; omega
    rw [hidx]
    rw [applyWrites_get?_in ws code c o bs (i - o) hd hc hmem hk,
        applyWrites_get?_in ws' code c' o bs (i - o) hd' hc' (hperm.mem_iff.mpr hmem) hk]
  · push_neg at hcov
    have hout : ∀ w ∈ ws, i < w.1 ∨ w.1 + w.2.length ≤ i := by
      intro w hw
      have := hcov w hw
      omega
    rw [applyWrites_get?_out ws code c i hc hout,
        applyWrites_get?_out ws' code c' i hc' (fun w hw => hout w (hperm.mem_iff.mp hw))]

end Assembler

namespace Assembler

/-! ### The resolution loops as write lists -/

/-- The write performed for one data patch (`L` is the code length). -/
def dataWrite (L : Nat) (p : Nat × Int) : Nat × List Nat :=
  (p.1, leUint32OfInt (0x400000 + p.2 + (L : Int) + 0x40 + 2 * 0x38))

/-- The write performed for one label patch. -/
def labelWrite (labels : List (String × Nat)) (p : Nat × String) : Nat × List Nat :=
  (p.1, putUint32LE (0x400000 + (lookupA labels p.2).getD 0 + 0x40 + 2 * 0x38))

theorem length_putUint32LE (v : Nat) : (putUint32LE v).length = 4 := rfl

theorem length_leUint32OfInt (v : Int) : (leUint32OfInt v).length = 4 := rfl

theorem runDataPatches_eq_applyWrites : ∀ (ps : List (Nat × Int)) (code : List Nat),
    runDataPatches code ps = applyWrites code (ps.map (dataWrite code.length)) := by
  intro ps
  induction ps with
  | nil => intro code; rfl
  | cons p ps ih =>
      intro code
      obtain ⟨o, v⟩ := p
      simp only [runDataPatches, List.map_cons, applyWrites, dataWrite]
      cases hw : writeBytes code o
          (leUint32OfInt (0x400000 + v + (code.length : Int) + 0x40 + 2 * 0x38)) with
      | none => rfl
      | some c =>
          have hl := writeBytes_length _ _ _ _ hw
          show runDataPatches c ps = applyWrites c (List.map (dataWrite code.length) ps)
          rw [ih c, hl]

theorem runLabelPatches_eq_applyWrites : ∀ (ts : List (Nat × String))
    (labels : List (String × Nat)) (code : List Nat),
    runLabelPatches labels code ts = applyWrites code (ts.map (labelWrite labels)) := by
  intro ts
  induction ts with
  | nil => intro labels code; rfl
  | cons p ts ih =>
      intro labels code
      obtain ⟨o, s⟩ := p
      simp only [runLabelPatches, List.map_cons, applyWrites, labelWrite]
      cases hw : writeBytes code o
          (putUint32LE (0x400000 + (lookupA labels s).getD 0 + 0x40 + 2 * 0x38)) with
      | none => rfl
      | some c =>
          show runLabelPatches labels c ts = applyWrites c (List.map (labelWrite labels) ts)
          exact ih labels c

theorem applyWrites_append : ∀ (xs ys : List (Nat × List Nat)) (code : List Nat),
    applyWrites code (xs ++ ys) =
      match applyWrites code xs with
      | some c => applyWrites c ys
      | none => none := by
  intro xs
  induction xs with
  | nil => intro ys code; rfl
  | cons w xs ih =>
      intro ys code
      obtain ⟨o, bs⟩ := w
      simp only [List.cons_append, applyWrites]
      cases hw : writeBytes code o bs with
      | none => rfl
      | some c => exact ih ys c

/-- The combined write list of full patch resolution. -/
def resolutionWrites (st : CompilerState) (ps : List (Nat × Int)) (ts : List (Nat × String)) :
    List (Nat × List Nat) :=
  ps.map (dataWrite st.code.length) ++ ts.map (labelWrite st.labels)

theorem resolveWith_eq_applyWrites (st : CompilerState) (ps : List (Nat × Int))
    (ts : List (Nat × String)) :
    resolveWith st ps ts =
      match applyWrites st.code (resolutionWrites st ps ts) with
      | some c => some { st with code := c }
      | none => none := by
  simp only [resolveWith, resolutionWrites, applyWrites_append,
    runDataPatches_eq_applyWrites, runLabelPatches_eq_applyWrites]
  cases applyWrites st.code (ps.map (dataWrite st.code.length)) with
  | none => rfl
  | some c1 =>
      show (match applyWrites c1 (List.map (labelWrite st.labels) ts) with
            | none => none
            | some c2 => some { st with code := c2 }) =
          (match applyWrites c1 (List.map (labelWrite st.labels) ts) with
            | some c2 => some { st with code := c2 }
            | none => none)
      cases applyWrites c1 (List.map (labelWrite st.labels) ts) with
      | none => rfl
      | some c2 => rfl

/-! ### Window lemmas -/

theorem window_append (code t : List Nat) (o : Nat) (h : o + 4 ≤ code.length) :
    window (code ++ t) o = window code o := by
  unfold window
  rw [List.drop_append_of_le_length (by omega),
      List.take_append_of_le_length (by rw [List.length_drop]; omega)]

theorem window_suffix (code bs : List Nat) (h : bs.length = 4) :
    window (code ++ bs) code.length = bs := by
  unfold window
  rw [List.drop_left, List.take_of_length_le (by omega)]

theorem get?_take_lt {α : Type} (l : List α) (n m : Nat) (h : m < n) :
    (l.take n).get? m = l.get? m := by
  rw [List.get?_eq_getElem?, List.get?_eq_getElem?, List.getElem?_take, if_pos h]

theorem window_eq_of_get? (c : List Nat) (o : Nat) (bs : List Nat) (hlen : bs.length = 4)
    (hb : o + 4 ≤ c.length) (h : ∀ k, k < 4 → c.get? (o + k) = bs.get? k) :
    window c o = bs := by
  apply List.ext_get?
  intro k
  by_cases hk : k < 4
  · unfold window
    rw [get?_take_lt _ _ _ hk, List.get?_drop, h k hk]
  · rw [List.get?_eq_none.mpr, List.get?_eq_none.mpr]
    · omega
    · unfold window
      rw [List.length_take, List.length_drop]
      omega

end Assembler

namespace Assembler

/-! ### Decimal print/parse round trip -/

theorem digitVal_toCh (d : Nat) (h : d < 10) : digitVal (toCh d) = some d := by
  interval_cases d <;> rfl

theorem toCh_ne_plus (d : Nat) (h : d < 10) : toCh d ≠ '+' := by
  interval_cases d <;> decide

theorem toCh_ne_minus (d : Nat) (h : d < 10) : toCh d ≠ '-' := by
  interval_cases d <;> decide

theorem toCh_ne_zeroCh (d : Nat) (h : d < 10) (h0 : d ≠ 0) : toCh d ≠ '0' := by
  interval_cases d
  · exact absurd rfl h0
  all_goals decide

theorem parseDigits_foldl_toCh : ∀ (ds : List Nat) (a : Nat), (∀ d ∈ ds, d < 10) →
    List.foldl (parseStep 10) (some a) (ds.map toCh) =
      some (ds.foldl (fun x d => x * 10 + d) a) := by
  intro ds
  induction ds with
  | nil => intro a _; rfl
  | cons d ds ih =>
      intro a hd
      have hd0 : d < 10 := hd d (List.mem_cons_self _ _)
      simp only [List.map_cons, List.foldl_cons]
      rw [show parseStep 10 (some a) (toCh d) = some (a * 10 + d) by
            simp [parseStep, digitVal_toCh d hd0, hd0]]
      exact ih (a * 10 + d) (fun x hx => hd x (List.mem_cons_of_mem _ hx))

theorem decDigitsAux_zero (fuel : Nat) : decDigitsAux fuel 0 = [] := by
  cases fuel <;> rfl

theorem decDigitsAux_lt10 : ∀ (fuel n : Nat), ∀ d ∈ decDigitsAux fuel n, d < 10 := by
  intro fuel
  induction fuel with
  | zero => intro n d hd; cases hd
  | succ fuel ih =>
      intro n d hd
      simp only [decDigitsAux] at hd
      by_cases hn : n = 0
      · rw [if_pos hn] at hd; cases hd
      · rw [if_neg hn] at hd
        rcases List.mem_cons.mp hd with h | h
        · omega
        · exact ih _ _ h

theorem decDigitsAux_foldr : ∀ (fuel n : Nat), n ≤ fuel →
    (decDigitsAux fuel n).foldr (fun d a => a * 10 + d) 0 = n := by
  intro fuel
  induction fuel with
  | zero => intro n h; interval_cases n; rfl
  | succ fuel ih =>
      intro n h
      by_cases hn : n = 0
      · subst hn; rw [decDigitsAux_zero]; rfl
      · simp only [decDigitsAux, if_neg hn, List.foldr_cons]
        have hdiv : n / 10 ≤ fuel := by
          have := Nat.div_lt_self (by omega : 0 < n) (by norm_num : 1 < 10)
          omega
        rw [ih (n / 10) hdiv]
        omega

theorem decDigits_rev_head : ∀ (fuel n : Nat), n ≤ fuel → n ≠ 0 →
    ∃ d rest, (decDigitsAux fuel n).reverse = d :: rest ∧ d ≠ 0 ∧ d < 10 := by
  intro fuel
  induction fuel with
  | zero => intro n h h0; omega
  | succ fuel ih =>
      intro n h h0
      simp only [decDigitsAux, if_neg h0, List.reverse_cons]
      by_cases hq : n / 10 = 0
      · rw [hq, decDigitsAux_zero]
        refine ⟨n % 10, [], by simp, by omega, by omega⟩
      · have hdiv : n / 10 ≤ fuel := by
          have := Nat.div_lt_self (by omega : 0 < n) (by norm_num : 1 < 10)
          omega
        obtain ⟨d, rest, hrev, hd0, hd10⟩ := ih (n / 10) hdiv hq
        exact ⟨d, rest ++ [n % 10], by rw [hrev]; simp, hd0, hd10⟩

theorem parseDigits_decimal (n : Nat) (hn : n ≠ 0) :
    parseDigits 10 (((decDigitsAux n n).map toCh).reverse) = some n := by
  unfold parseDigits
  rw [← List.map_reverse,
      parseDigits_foldl_toCh _ 0
        (fun d hd => decDigitsAux_lt10 _ _ d (List.mem_reverse.mp hd))]
  congr 1
  rw [List.foldl_reverse]
  exact decDigitsAux_foldr n n le_rfl

theorem splitBase_cons_ne (c0 : Char) (r : List Char) (h : c0 ≠ '0') :
    splitBase (c0 :: r) = (10, c0 :: r) := by
  cases r with
  | nil => rfl
  | cons c1 r' => simp only [splitBase, if_neg h]

theorem decimalChars_spec (n : Nat) (hn : n ≠ 0) :
    ∃ (d : Nat) (rest : List Nat),
      decimalChars n = toCh d :: rest.map toCh ∧ d ≠ 0 ∧ d < 10 ∧
      (∀ x ∈ rest, x < 10) ∧
      toCh d :: rest.map toCh = ((decDigitsAux n n).map toCh).reverse := by
  obtain ⟨d, rest, hrev, hd0, hd10⟩ := decDigits_rev_head n n le_rfl hn
  refine ⟨d, rest, ?_, hd0, hd10, ?_, ?_⟩
  · unfold decimalChars
    rw [if_neg hn, ← List.map_reverse, hrev, List.map_cons]
  · intro x hx
    have : x ∈ (decDigitsAux n n).reverse := by rw [hrev]; exact List.mem_cons_of_mem _ hx
    exact decDigitsAux_lt10 _ _ x (List.mem_reverse.mp this)
  · rw [← List.map_reverse, hrev, List.map_cons]

theorem goParseInt_decimalString (n : Nat) :
    goParseInt (decimalString n) = if n < 2 ^ 63 then some (n : Int) else none := by
  by_cases hn : n = 0
  · subst hn
    rw [if_pos (by norm_num)]
    rfl
  · obtain ⟨d, rest, hchars, hd0, hd10, _, hbe⟩ := decimalChars_spec n hn
    have hdata : (decimalString n).data = toCh d :: rest.map toCh := by
      unfold decimalString
      rw [hchars]
    unfold goParseInt goParseIntCore
    rw [hdata]
    have hsign : splitSign (toCh d :: rest.map toCh) = (false, toCh d :: rest.map toCh) := by
      simp only [splitSign]
      rw [if_neg (toCh_ne_plus d hd10), if_neg (toCh_ne_minus d hd10)]
    have hbase : splitBase (toCh d :: rest.map toCh) = (10, toCh d :: rest.map toCh) :=
      splitBase_cons_ne _ _ (toCh_ne_zeroCh d hd10 hd0)
    rw [hsign]
    simp only [hbase]
    rw [if_neg (by simp)]
    rw [hbe, parseDigits_decimal n hn]
    simp only [Bool.false_eq_true, if_false]

theorem goAtoi_decimalString (n : Nat) (h : n < 2 ^ 63) :
    goAtoi (decimalString n) = (n : Int) := by
  by_cases hn : n = 0
  · subst hn; rfl
  · obtain ⟨d, rest, hchars, hd0, hd10, _, hbe⟩ := decimalChars_spec n hn
    have hdata : (decimalString n).data = toCh d :: rest.map toCh := by
      unfold decimalString
      rw [hchars]
    unfold goAtoi
    rw [hdata]
    have hsign : splitSign (toCh d :: rest.map toCh) = (false, toCh d :: rest.map toCh) := by
      simp only [splitSign]
      rw [if_neg (toCh_ne_plus d hd10), if_neg (toCh_ne_minus d hd10)]
    rw [hsign]
    rw [if_neg (by simp)]
    rw [hbe, parseDigits_decimal n hn]
    simp only [Bool.false_eq_true, if_false, if_pos h]

end Assembler

namespace Assembler

/-! ### Small arithmetic and map lemmas -/

theorem uint32ofInt_natCast (n : Nat) : uint32ofInt ((n : Int)) = n % 4294967296 := by
  unfold uint32ofInt
  omega

theorem putUint32LE_mod (n : Nat) : putUint32LE (n % 4294967296) = putUint32LE n := by
  simp only [putUint32LE, List.cons.injEq, and_true]
  omega

theorem leUint32OfInt_natCast (n : Nat) : leUint32OfInt ((n : Int)) = putUint32LE n := by
  unfold leUint32OfInt
  rw [uint32ofInt_natCast, putUint32LE_mod]

theorem insertA_of_not_mem {α β : Type} [DecidableEq α] :
    ∀ (m : List (α × β)) (k : α) (v : β), k ∉ m.map Prod.fst →
    insertA m k v = m ++ [(k, v)] := by
  intro m k v
  induction m with
  | nil => intro _; rfl
  | cons p m ih =>
      intro h
      obtain ⟨k', v'⟩ := p
      simp only [List.map_cons, List.mem_cons] at h
      push_neg at h
      have hne : ¬(k' = k) := fun heq => h.1 heq.symm
      simp only [insertA, if_neg hne]
      rw [ih h.2, List.cons_append]

/-! ### Characterisation of successful instruction steps -/

theorem argToByteArray_ok (lit : String) (n : List Nat) (h : argToByteArray lit = .ok n) :
    ∃ w, goParseInt lit = some w ∧ n = putUint32LE (uint32ofInt w) := by
  unfold argToByteArray at h
  cases hw : goParseInt lit with
  | none => rw [hw] at h; cases h
  | some w =>
      rw [hw] at h
      injection h with h2
      exact ⟨w, rfl, h2.symm⟩

theorem movRegNumber_ok (st : CompilerState) (reg lit : String) (lab : Bool)
    (st' : CompilerState) (h : movRegNumber st reg lit lab = .ok st') :
    ∃ (pre : List Nat) (w : Int), pre.length = 3 ∧ goParseInt lit = some w ∧
      ((lab = false ∧ st' = { st with code := st.code ++ pre ++ putUint32LE (uint32ofInt w) }) ∨
       (lab = true ∧ st' = { st with
          code := st.code ++ pre ++ putUint32LE (uint32ofInt w),
          patches := insertA st.patches (st.code.length + 3) (goAtoi lit) })) := by
  unfold movRegNumber at h
  by_cases hr1 : reg = "rax"
  · rw [if_pos hr1] at h
    cases ha : argToByteArray lit with
    | error e => rw [ha] at h; cases h
    | ok n =>
        rw [ha] at h
        obtain ⟨w, hw, rfl⟩ := argToByteArray_ok lit n ha
        refine ⟨[0x48, 0xc7, 0xc0], w, rfl, hw, ?_⟩
        cases lab with
        | false =>
            simp only [Bool.false_eq_true, if_false] at h
            injection h with h5
            exact Or.inl ⟨rfl, h5.symm⟩
        | true =>
            simp only [if_true] at h
            injection h with h5
            refine Or.inr ⟨rfl, ?_⟩
            rw [← h5]
            simp [List.length_append]
  · rw [if_neg hr1] at h
    by_cases hr2 : reg = "rbx"
    · rw [if_pos hr2] at h
      cases ha : argToByteArray lit with
      | error e => rw [ha] at h; cases h
      | ok n =>
          rw [ha] at h
          obtain ⟨w, hw, rfl⟩ := argToByteArray_ok lit n ha
          refine ⟨[0x48, 0xc7, 0xc3], w, rfl, hw, ?_⟩
          cases lab with
          | false =>
              simp only [Bool.false_eq_true, if_false] at h
              injection h with h5
              exact Or.inl ⟨rfl, h5.symm⟩
          | true =>
              simp only [if_true] at h
              injection h with h5
              refine Or.inr ⟨rfl, ?_⟩
              rw [← h5]
              simp [List.length_append]
    · rw [if_neg hr2] at h
      by_cases hr3 : reg = "rcx"
      · rw [if_pos hr3] at h
        cases ha : argToByteArray lit with
        | error e => rw [ha] at h; cases h
        | ok n =>
            rw [ha] at h
            obtain ⟨w, hw, rfl⟩ := argToByteArray_ok lit n ha
            refine ⟨[0x48, 0xc7, 0xc1], w, rfl, hw, ?_⟩
            cases lab with
            | false =>
                simp only [Bool.false_eq_true, if_false] at h
                injection h with h5
                exact Or.inl ⟨rfl, h5.symm⟩
            | true =>
                simp only [if_true] at h
                injection h with h5
                refine Or.inr ⟨rfl, ?_⟩
                rw [← h5]
                simp [List.length_append]
      · rw [if_neg hr3] at h
        by_cases hr4 : reg = "rdx"
        · rw [if_pos hr4] at h
          cases ha : argToByteArray lit with
          | error e => rw [ha] at h; cases h
          | ok n =>
              rw [ha] at h
              obtain ⟨w, hw, rfl⟩ := argToByteArray_ok lit n ha
              refine ⟨[0x48, 0xc7, 0xc2], w, rfl, hw, ?_⟩
              cases lab with
              | false =>
                  simp only [Bool.false_eq_true, if_false] at h
                  injection h with h5
                  exact Or.inl ⟨rfl, h5.symm⟩
              | true =>
                  simp only [if_true] at h
                  injection h with h5
                  refine Or.inr ⟨rfl, ?_⟩
                  rw [← h5]
                  simp [List.length_append]
        · rw [if_neg hr4] at h
          cases h

theorem assembleADD_ok (st : CompilerState) (ops : List Token) (st' : CompilerState)
    (h : assembleADD st ops = .ok st') : ∃ bs, st' = { st with code := st.code ++ bs } := by
  unfold assembleADD at h
  split at h
  · split at h
    · injection h with h2
      exact ⟨_, h2.symm⟩
    · split at h
      · split at h
        · cases h
        · split_ifs at h <;>
            first
              | (injection h with h2; exact ⟨_, by rw [← h2, List.append_assoc]⟩)
              | cases h
      · cases h
  · cases h

theorem assembleSUB_ok (st : CompilerState) (ops : List Token) (st' : CompilerState)
    (h : assembleSUB st ops = .ok st') : ∃ bs, st' = { st with code := st.code ++ bs } := by
  unfold assembleSUB at h
  split at h
  · split at h
    · injection h with h2
      exact ⟨_, h2.symm⟩
    · split at h
      · split at h
        · cases h
        · split_ifs at h <;>
            first
              | (injection h with h2; exact ⟨_, by rw [← h2, List.append_assoc]⟩)
              | cases h
      · cases h
  · cases h

theorem assembleDEC_ok (st : CompilerState) (ops : List Token) (st' : CompilerState)
    (h : assembleDEC st ops = .ok st') : ∃ bs, st' = { st with code := st.code ++ bs } := by
  unfold assembleDEC at h
  split at h
  · cases h
  · split at h
    · injection h with h2
      exact ⟨_, h2.symm⟩
    · cases h

theorem assembleINC_ok (st : CompilerState) (ops : List Token) (st' : CompilerState)
    (h : assembleINC st ops = .ok st') : ∃ bs, st' = { st with code := st.code ++ bs } := by
  unfold assembleINC at h
  split at h
  · cases h
  · split at h
    · injection h with h2
      exact ⟨_, h2.symm⟩
    · cases h

theorem assembleXOR_ok (st : CompilerState) (ops : List Token) (st' : CompilerState)
    (h : assembleXOR st ops = .ok st') : ∃ bs, st' = { st with code := st.code ++ bs } := by
  unfold assembleXOR at h
  split at h
  · cases h
  · split_ifs at h <;>
      first
        | (injection h with h2; exact ⟨_, h2.symm⟩)
        | cases h

theorem assemblePush_ok (st : CompilerState) (ops : List Token) (st' : CompilerState)
    (h : assemblePush st ops = .ok st') :
    (∃ bs, st' = { st with code := st.code ++ bs }) ∨
    (∃ name, st' = { st with
        code := st.code ++ [0x68] ++ [0x0, 0x0, 0x0, 0x0],
        labelTargets := insertA st.labelTargets (st.code.length + 1) name }) := by
  unfold assemblePush at h
  split at h
  · cases h
  next op0 heq =>
    split_ifs at h with ht ht2
    · split at h
      · cases h
      · split at h
        · cases h
        · injection h with h2
          exact Or.inl ⟨_, by rw [← h2, List.append_assoc]⟩
    · injection h with h2
      refine Or.inr ⟨op0.literal, ?_⟩
      rw [← h2]
      simp [List.length_append]

/-- The three possible outcomes of a successfully compiled instruction:
a plain append, an append recording a data patch, or an append recording
a label target. -/
def OkShape (st st' : CompilerState) : Prop :=
  (∃ bs, st' = { st with code := st.code ++ bs }) ∨
  (∃ (pre : List Nat) (D : Nat), pre.length = 3 ∧ D < 2 ^ 63 ∧
     st' = { st with
       code := st.code ++ pre ++ putUint32LE D,
       patches := insertA st.patches (st.code.length + 3) ((D : Int)) }) ∨
  (∃ name : String, st' = { st with
     code := st.code ++ [0x68] ++ [0x0, 0x0, 0x0, 0x0],
     labelTargets := insertA st.labelTargets (st.code.length + 1) name })

theorem assembleMov_ok (st : CompilerState) (ops : List Token) (st' : CompilerState)
    (h : assembleMov st ops false = .ok st') : OkShape st st' := by
  unfold assembleMov at h
  split at h
  · cases h
  · split at h
    · split at h
      · cases h
      · split at h
        · injection h with h2
          exact Or.inl ⟨[], by rw [← h2]; simp⟩
        · split at h
          · obtain ⟨pre, w, hpre, hw, hcase⟩ := movRegNumber_ok _ _ _ _ _ h
            rcases hcase with ⟨_, rfl⟩ | ⟨hbad, _⟩
            · exact Or.inl ⟨pre ++ putUint32LE (uint32ofInt w), by simp [List.append_assoc]⟩
            · exact Bool.noConfusion hbad
          · split at h
            · split at h
              next val heq =>
                obtain ⟨pre, w, hpre, hw, hcase⟩ := movRegNumber_ok _ _ _ _ _ h
                rw [goParseInt_decimalString] at hw
                by_cases hv : val < 2 ^ 63
                · rw [if_pos hv] at hw
                  injection hw with hw2
                  rcases hcase with ⟨hbad, _⟩ | ⟨_, heq2⟩
                  · exact Bool.noConfusion hbad
                  · right; left
                    refine ⟨pre, val, hpre, hv, ?_⟩
                    rw [heq2, ← hw2, uint32ofInt_natCast, putUint32LE_mod,
                        goAtoi_decimalString val hv]
                · rw [if_neg hv] at hw; cases hw
              next heq => cases h
            · cases h
    · cases h

theorem compileInstruction_ok_shape (st : CompilerState) (mn : String) (ops : List Token)
    (st' : CompilerState) (h : compileInstruction st mn ops = .ok st') : OkShape st st' := by
  unfold compileInstruction at h
  by_cases m1 : mn = "add"
  · rw [if_pos m1] at h; exact Or.inl (assembleADD_ok _ _ _ h)
  rw [if_neg m1] at h
  by_cases m2 : mn = "dec"
  · rw [if_pos m2] at h; exact Or.inl (assembleDEC_ok _ _ _ h)
  rw [if_neg m2] at h
  by_cases m3 : mn = "inc"
  · rw [if_pos m3] at h; exact Or.inl (assembleINC_ok _ _ _ h)
  rw [if_neg m3] at h
  by_cases m4 : mn = "int"
  · rw [if_pos m4] at h
    split at h
    · cases h
    · split at h
      · cases h
      · injection h with h2
        exact Or.inl ⟨_, h2.symm⟩
  rw [if_neg m4] at h
  by_cases m5 : mn = "mov"
  · rw [if_pos m5] at h; exact assembleMov_ok _ _ _ h
  rw [if_neg m5] at h
  by_cases m6 : mn = "nop"
  · rw [if_pos m6] at h
    injection h with h2
    exact Or.inl ⟨[0x90], h2.symm⟩
  rw [if_neg m6] at h
  by_cases m7 : mn = "push"
  · rw [if_pos m7] at h
    rcases assemblePush_ok _ _ _ h with h' | h'
    · exact Or.inl h'
    · exact Or.inr (Or.inr h')
  rw [if_neg m7] at h
  by_cases m8 : mn = "ret"
  · rw [if_pos m8] at h
    injection h with h2
    exact Or.inl ⟨[0xc3], h2.symm⟩
  rw [if_neg m8] at h
  by_cases m9 : mn = "sub"
  · rw [if_pos m9] at h; exact Or.inl (assembleSUB_ok _ _ _ h)
  rw [if_neg m9] at h
  by_cases m10 : mn = "xor"
  · rw [if_pos m10] at h; exact Or.inl (assembleXOR_ok _ _ _ h)
  rw [if_neg m10] at h
  cases h

/-! ### The patch-set invariant -/

/-- Two patch offsets with disjoint 4-byte windows. -/
def PDisj (a b : Nat) : Prop := a + 4 ≤ b ∨ b + 4 ≤ a

/-- Invariant maintained over the whole statement pass: every patch's
4-byte window is inside the code buffer, the windows are pairwise
disjoint, a data patch's window holds the little-endian bytes of its
stored value, and a label patch's window holds 4 zero bytes. -/
structure Inv (st : CompilerState) : Prop where
  bounds : ∀ o ∈ allPatchOffsets st, o + 4 ≤ st.code.length
  sep : (allPatchOffsets st).Pairwise PDisj
  dataWin : ∀ p ∈ st.patches, window st.code p.1 = leUint32OfInt p.2
  labelWin : ∀ p ∈ st.labelTargets, window st.code p.1 = [0x0, 0x0, 0x0, 0x0]

theorem mem_offsets_patches (st : CompilerState) {p : Nat × Int} (hp : p ∈ st.patches) :
    p.1 ∈ allPatchOffsets st :=
  List.mem_append_left _ (List.mem_map_of_mem Prod.fst hp)

theorem mem_offsets_targets (st : CompilerState) {p : Nat × String} (hp : p ∈ st.labelTargets) :
    p.1 ∈ allPatchOffsets st :=
  List.mem_append_right _ (List.mem_map_of_mem Prod.fst hp)

theorem inv_init : Inv initState := by
  refine ⟨?_, ?_, ?_, ?_⟩ <;> simp [allPatchOffsets, initState]

theorem inv_append (st : CompilerState) (bs : List Nat) (hI : Inv st) :
    Inv { st with code := st.code ++ bs } := by
  refine ⟨?_, hI.sep, ?_, ?_⟩
  · intro o ho
    have := hI.bounds o ho
    simp only [List.length_append]
    omega
  · intro p hp
    have hb := hI.bounds p.1 (mem_offsets_patches st hp)
    show window (st.code ++ bs) p.1 = leUint32OfInt p.2
    rw [window_append _ _ _ hb]
    exact hI.dataWin p hp
  · intro p hp
    have hb := hI.bounds p.1 (mem_offsets_targets st hp)
    show window (st.code ++ bs) p.1 = [0x0, 0x0, 0x0, 0x0]
    rw [window_append _ _ _ hb]
    exact hI.labelWin p hp

theorem patch_key_fresh (st : CompilerState) (hI : Inv st) (k : Nat)
    (hk : st.code.length ≤ k) : k ∉ st.patches.map Prod.fst := by
  intro hmem
  have := hI.bounds k (List.mem_append_left _ hmem)
  omega

theorem target_key_fresh (st : CompilerState) (hI : Inv st) (k : Nat)
    (hk : st.code.length ≤ k) : k ∉ st.labelTargets.map Prod.fst := by
  intro hmem
  have := hI.bounds k (List.mem_append_right _ hmem)
  omega

theorem inv_data_patch (st : CompilerState) (pre : List Nat) (D : Nat)
    (hpre : pre.length = 3) (hI : Inv st) :
    Inv { st with
          code := st.code ++ pre ++ putUint32LE D,
          patches := insertA st.patches (st.code.length + 3) ((D : Int)) } := by
  have hins : insertA st.patches (st.code.length + 3) ((D : Int)) =
      st.patches ++ [(st.code.length + 3, (D : Int))] :=
    insertA_of_not_mem _ _ _ (patch_key_fresh st hI _ (by omega))
  have hoff : allPatchOffsets { st with
        code := st.code ++ pre ++ putUint32LE D,
        patches := insertA st.patches (st.code.length + 3) ((D : Int)) } =
      (st.patches.map Prod.fst ++ [st.code.length + 3]) ++ st.labelTargets.map Prod.fst := by
    simp only [allPatchOffsets, hins, List.map_append]
    rfl
  have hlen : (st.code ++ pre ++ putUint32LE D).length = st.code.length + 7 := by
    simp [List.length_append, hpre]
    rfl
  have hsep := hI.sep
  rw [allPatchOffsets, List.pairwise_append] at hsep
  obtain ⟨hP, hT, hPT⟩ := hsep
  refine ⟨?_, ?_, ?_, ?_⟩
  · intro o ho
    rw [hoff] at ho
    rw [hlen]
    rcases List.mem_append.mp ho with h | h
    · rcases List.mem_append.mp h with h' | h'
      · have := hI.bounds o (List.mem_append_left _ h')
        omega
      · have : o = st.code.length + 3 := by simpa using h'
        omega
    · have := hI.bounds o (List.mem_append_right _ h)
      omega
  · rw [hoff]
    refine List.pairwise_append.mpr ⟨?_, hT, ?_⟩
    · refine List.pairwise_append.mpr ⟨hP, List.pairwise_singleton _ _, ?_⟩
      intro a ha b hb
      have hb' : b = st.code.length + 3 := by simpa using hb
      have := hI.bounds a (List.mem_append_left _ ha)
      left
      omega
    · intro a ha b hb
      rcases List.mem_append.mp ha with h' | h'
      · exact hPT a h' b hb
      · have ha' : a = st.code.length + 3 := by simpa using h'
        have := hI.bounds b (List.mem_append_right _ hb)
        right
        omega
  · intro p hp
    show window (st.code ++ pre ++ putUint32LE D) p.1 = leUint32OfInt p.2
    rw [hins] at hp
    rcases List.mem_append.mp hp with h | h
    · have hb := hI.bounds p.1 (mem_offsets_patches st h)
      rw [List.append_assoc, window_append _ _ _ hb]
      exact hI.dataWin p h
    · have hp' : p = (st.code.length + 3, (D : Int)) := by simpa using h
      subst hp'
      show window (st.code ++ pre ++ putUint32LE D) (st.code.length + 3) = leUint32OfInt ((D : Int))
      have hkey : st.code.length + 3 = (st.code ++ pre).length := by
        simp [List.length_append, hpre]
      rw [hkey, window_suffix _ _ (by rfl), leUint32OfInt_natCast]
  · intro p hp
    show window (st.code ++ pre ++ putUint32LE D) p.1 = [0x0, 0x0, 0x0, 0x0]
    have hb := hI.bounds p.1 (mem_offsets_targets st hp)
    rw [List.append_assoc, window_append _ _ _ hb]
    exact hI.labelWin p hp

theorem inv_label_patch (st : CompilerState) (name : String) (hI : Inv st) :
    Inv { st with
          code := st.code ++ [0x68] ++ [0x0, 0x0, 0x0, 0x0],
          labelTargets := insertA st.labelTargets (st.code.length + 1) name } := by
  have hins : insertA st.labelTargets (st.code.length + 1) name =
      st.labelTargets ++ [(st.code.length + 1, name)] :=
    insertA_of_not_mem _ _ _ (target_key_fresh st hI _ (by omega))
  have hoff : allPatchOffsets { st with
        code := st.code ++ [0x68] ++ [0x0, 0x0, 0x0, 0x0],
        labelTargets := insertA st.labelTargets (st.code.length + 1) name } =
      st.patches.map Prod.fst ++ (st.labelTargets.map Prod.fst ++ [st.code.length + 1]) := by
    simp only [allPatchOffsets, hins, List.map_append]
    rfl
  have hlen : (st.code ++ [0x68] ++ [0x0, 0x0, 0x0, 0x0]).length = st.code.length + 5 := by
    simp [List.length_append]
  have hsep := hI.sep
  rw [allPatchOffsets, List.pairwise_append] at hsep
  obtain ⟨hP, hT, hPT⟩ := hsep
  refine ⟨?_, ?_, ?_, ?_⟩
  · intro o ho
    rw [hoff] at ho
    rw [hlen]
    rcases List.mem_append.mp ho with h | h
    · have := hI.bounds o (List.mem_append_left _ h)
      omega
    · rcases List.mem_append.mp h with h' | h'
      · have := hI.bounds o (List.mem_append_right _ h')
        omega
      · have : o = st.code.length + 1 := by simpa using h'
        omega
  · rw [hoff]
    refine List.pairwise_append.mpr ⟨hP, ?_, ?_⟩
    · refine List.pairwise_append.mpr ⟨hT, List.pairwise_singleton _ _, ?_⟩
      intro a ha b hb
      have hb' : b = st.code.length + 1 := by simpa using hb
      have := hI.bounds a (List.mem_append_right _ ha)
      left
      omega
    · intro a ha b hb
      rcases List.mem_append.mp hb with h' | h'
      · exact hPT a ha b h'
      · have hb' : b = st.code.length + 1 := by simpa using h'
        have := hI.bounds a (List.mem_append_left _ ha)
        left
        omega
  · intro p hp
    show window (st.code ++ [0x68] ++ [0x0, 0x0, 0x0, 0x0]) p.1 = leUint32OfInt p.2
    have hb := hI.bounds p.1 (mem_offsets_patches st hp)
    rw [List.append_assoc, window_append _ _ _ hb]
    exact hI.dataWin p hp
  · intro p hp
    show window (st.code ++ [0x68] ++ [0x0, 0x0, 0x0, 0x0]) p.1 = [0x0, 0x0, 0x0, 0x0]
    rw [hins] at hp
    rcases List.mem_append.mp hp with h | h
    · have hb := hI.bounds p.1 (mem_offsets_targets st h)
      rw [List.append_assoc, window_append _ _ _ hb]
      exact hI.labelWin p h
    · have hp' : p = (st.code.length + 1, name) := by simpa using h
      subst hp'
      show window (st.code ++ [0x68] ++ [0x0, 0x0, 0x0, 0x0]) (st.code.length + 1) =
        [0x0, 0x0, 0x0, 0x0]
      have hkey : st.code.length + 1 = (st.code ++ [0x68]).length := by
        simp [List.length_append]
      rw [hkey, window_suffix _ _ (by rfl)]

theorem okShape_inv (st st' : CompilerState) (hs : OkShape st st') (hI : Inv st) :
    Inv st' := by
  rcases hs with ⟨bs, rfl⟩ | ⟨pre, D, hpre, _, rfl⟩ | ⟨name, rfl⟩
  · exact inv_append st bs hI
  · exact inv_data_patch st pre D hpre hI
  · exact inv_label_patch st name hI

theorem okShape_extends (st st' : CompilerState) (hs : OkShape st st') (hI : Inv st) :
    (∃ t, st'.code = st.code ++ t) ∧ (∀ p ∈ st.patches, p ∈ st'.patches) ∧
      (∀ p ∈ st.labelTargets, p ∈ st'.labelTargets) := by
  rcases hs with ⟨bs, rfl⟩ | ⟨pre, D, hpre, _, rfl⟩ | ⟨name, rfl⟩
  · exact ⟨⟨bs, rfl⟩, fun p hp => hp, fun p hp => hp⟩
  · refine ⟨⟨pre ++ putUint32LE D, by simp [List.append_assoc]⟩, ?_, fun p hp => hp⟩
    intro p hp
    show p ∈ insertA st.patches (st.code.length + 3) ((D : Int))
    rw [insertA_of_not_mem _ _ _ (patch_key_fresh st hI _ (by omega))]
    exact List.mem_append_left _ hp
  · refine ⟨⟨[0x68] ++ [0x0, 0x0, 0x0, 0x0], by simp [List.append_assoc]⟩,
      fun p hp => hp, ?_⟩
    intro p hp
    show p ∈ insertA st.labelTargets (st.code.length + 1) name
    rw [insertA_of_not_mem _ _ _ (target_key_fresh st hI _ (by omega))]
    exact List.mem_append_left _ hp

theorem compileStmts_inv : ∀ (prog : List Stmt) (st st' : CompilerState),
    Inv st → compileStmts prog st = .ok st' →
    Inv st' ∧ (∃ t, st'.code = st.code ++ t) ∧
      (∀ p ∈ st.patches, p ∈ st'.patches) ∧
      (∀ p ∈ st.labelTargets, p ∈ st'.labelTargets) := by
  intro prog
  induction prog with
  | nil =>
      intro st st' hI h
      injection h with h2
      subst h2
      exact ⟨hI, ⟨[], by simp⟩, fun p hp => hp, fun p hp => hp⟩
  | cons s rest ih =>
      intro st st' hI h
      cases s with
      | data name contents =>
          simp only [compileStmts] at h
          have hI2 : Inv (handleData st name contents) :=
            ⟨hI.bounds, hI.sep, hI.dataWin, hI.labelWin⟩
          exact ih (handleData st name contents) st' hI2 h
      | label name =>
          simp only [compileStmts] at h
          have hI2 : Inv { st with labels := insertA st.labels name st.code.length } :=
            ⟨hI.bounds, hI.sep, hI.dataWin, hI.labelWin⟩
          exact ih { st with labels := insertA st.labels name st.code.length } st' hI2 h
      | error msg =>
          simp only [compileStmts] at h
          cases h
      | instruction mn ops =>
          simp only [compileStmts] at h
          cases hc : compileInstruction st mn ops with
          | ok st1 =>
              rw [hc] at h
              have hs := compileInstruction_ok_shape _ _ _ _ hc
              have hI1 := okShape_inv _ _ hs hI
              obtain ⟨⟨t1, hext1⟩, hp1, ht1⟩ := okShape_extends _ _ hs hI
              obtain ⟨hI', ⟨t2, hext2⟩, hp2, ht2⟩ := ih _ _ hI1 h
              exact ⟨hI', ⟨t1 ++ t2, by rw [hext2, hext1, List.append_assoc]⟩,
                fun p hp => hp2 p (hp1 p hp), fun p hp => ht2 p (ht1 p hp)⟩
          | err m s2 => rw [hc] at h; cases h
          | panic => rw [hc] at h; cases h

/-! ### Resolution under the invariant -/

theorem resolutionWrites_len (st : CompilerState) (ps : List (Nat × Int))
    (ts : List (Nat × String)) :
    ∀ w ∈ resolutionWrites st ps ts, w.2.length = 4 := by
  intro w hw
  rcases List.mem_append.mp hw with h | h
  · obtain ⟨p, _, rfl⟩ := List.mem_map.mp h
    exact length_leUint32OfInt _
  · obtain ⟨p, _, rfl⟩ := List.mem_map.mp h
    exact length_putUint32LE _

theorem resolutionWrites_fst (st : CompilerState) (ps : List (Nat × Int))
    (ts : List (Nat × String)) :
    (resolutionWrites st ps ts).map Prod.fst = ps.map Prod.fst ++ ts.map Prod.fst := by
  unfold resolutionWrites
  rw [List.map_append, List.map_map, List.map_map]
  congr 1

theorem resolutionWrites_bounds (st : CompilerState) (hI : Inv st) :
    ∀ w ∈ resolutionWrites st st.patches st.labelTargets,
      w.1 + w.2.length ≤ st.code.length := by
  intro w hw
  rw [resolutionWrites_len st _ _ w hw]
  rcases List.mem_append.mp hw with h | h
  · obtain ⟨p, hp, rfl⟩ := List.mem_map.mp h
    exact hI.bounds p.1 (mem_offsets_patches st hp)
  · obtain ⟨p, hp, rfl⟩ := List.mem_map.mp h
    exact hI.bounds p.1 (mem_offsets_targets st hp)

theorem resolutionWrites_disj (st : CompilerState) (hI : Inv st) :
    List.Pairwise WDisj (resolutionWrites st st.patches st.labelTargets) := by
  have hsep := hI.sep
  rw [show allPatchOffsets st =
        (resolutionWrites st st.patches st.labelTargets).map Prod.fst from
      (resolutionWrites_fst st _ _).symm] at hsep
  rw [List.pairwise_map] at hsep
  refine List.Pairwise.imp_of_mem ?_ hsep
  intro a b ha hb hab
  have hla := resolutionWrites_len st _ _ a ha
  have hlb := resolutionWrites_len st _ _ b hb
  unfold WDisj
  unfold PDisj at hab
  omega

theorem resolve_spec (st : CompilerState) (hI : Inv st) :
    ∃ stf, resolve st = some stf ∧ stf.code.length = st.code.length ∧
      stf.data = st.data ∧ stf.patches = st.patches ∧ stf.labels = st.labels ∧
      stf.labelTargets = st.labelTargets ∧ stf.dataOffsets = st.dataOffsets ∧
      (∀ p ∈ st.patches, window stf.code p.1 =
        leUint32OfInt (0x400000 + p.2 + (st.code.length : Int) + 0x40 + 2 * 0x38)) ∧
      (∀ p ∈ st.labelTargets, window stf.code p.1 =
        putUint32LE (0x400000 + (lookupA st.labels p.2).getD 0 + 0x40 + 2 * 0x38)) := by
  obtain ⟨c, hc, hcl⟩ :=
    applyWrites_some (resolutionWrites st st.patches st.labelTargets) st.code
      (resolutionWrites_bounds st hI)
  refine ⟨{ st with code := c }, ?_, hcl, rfl, rfl, rfl, rfl, rfl, ?_, ?_⟩
  · rw [resolve, resolveWith_eq_applyWrites, hc]
  · intro p hp
    have hwmem : dataWrite st.code.length p ∈ resolutionWrites st st.patches st.labelTargets :=
      List.mem_append_left _ (List.mem_map_of_mem _ hp)
    have hb := hI.bounds p.1 (mem_offsets_patches st hp)
    refine window_eq_of_get? c p.1 _ (length_leUint32OfInt _) (by omega) ?_
    intro k hk
    exact applyWrites_get?_in _ _ _ _ _ k (resolutionWrites_disj st hI) hc hwmem
      (by rw [length_leUint32OfInt]; omega)
  · intro p hp
    have hwmem : labelWrite st.labels p ∈ resolutionWrites st st.patches st.labelTargets :=
      List.mem_append_right _ (List.mem_map_of_mem _ hp)
    have hb := hI.bounds p.1 (mem_offsets_targets st hp)
    refine window_eq_of_get? c p.1 _ (length_putUint32LE _) (by omega) ?_
    intro k hk
    exact applyWrites_get?_in _ _ _ _ _ k (resolutionWrites_disj st hI) hc hwmem
      (by rw [length_putUint32LE]; omega)

theorem resolveWith_perm (st : CompilerState) (hI : Inv st) (ps : List (Nat × Int))
    (ts : List (Nat × String)) (hp : ps.Perm st.patches) (ht : ts.Perm st.labelTargets) :
    resolveWith st ps ts = resolve st := by
  rw [resolve, resolveWith_eq_applyWrites, resolveWith_eq_applyWrites]
  rw [applyWrites_perm (resolutionWrites st st.patches st.labelTargets)
        (resolutionWrites st ps ts) st.code (resolutionWrites_disj st hI)
        (resolutionWrites_bounds st hI)
        (List.Perm.append (hp.map _) (ht.map _))]

/-! ### Concrete-instruction computation lemmas -/

theorem compileInstruction_add (st : CompilerState) (ops : List Token) :
    compileInstruction st "add" ops = assembleADD st ops := rfl

theorem compileInstruction_mov_regnum (st : CompilerState) (r lit : String) :
    compileInstruction st "mov" [⟨TokenType.REGISTER, r⟩, ⟨TokenType.NUMBER, lit⟩] =
      movRegNumber st r lit false := rfl

theorem compileInstruction_mov_ident (st : CompilerState) (r id : String) :
    compileInstruction st "mov" [⟨TokenType.REGISTER, r⟩, ⟨TokenType.IDENTIFIER, id⟩] =
      (match lookupA st.dataOffsets id with
       | some val => movRegNumber st r (decimalString val) true
       | none => .err "reference to unknown label/data" st) := rfl

theorem compileInstruction_push_ident (st : CompilerState) (id : String) :
    compileInstruction st "push" [⟨TokenType.IDENTIFIER, id⟩] =
      .ok { st with
            labelTargets := insertA st.labelTargets (st.code ++ [0x68]).length id,
            code := (st.code ++ [0x68]) ++ [0x0, 0x0, 0x0, 0x0] } := rfl

theorem push_ident_eq (st : CompilerState) (id : String) :
    compileInstruction st "push" [⟨TokenType.IDENTIFIER, id⟩] =
      .ok { st with
            code := st.code ++ [0x68] ++ [0x0, 0x0, 0x0, 0x0],
            labelTargets := insertA st.labelTargets (st.code.length + 1) id } := by
  rw [compileInstruction_push_ident]
  simp [List.length_append]

theorem assembleADD_cons (st : CompilerState) (op0 op1 : Token) (t : List Token) :
    assembleADD st (op0 :: op1 :: t) =
      match lookupA addCodes (op0.literal, op1.literal) with
      | some bytes => .ok { st with code := st.code ++ bytes }
      | none =>
          if op0.type = TokenType.REGISTER ∧ op1.type = TokenType.NUMBER then
            match argToByteArray op1.literal with
            | .error e => .err e st
            | .ok n =>
                if op0.literal = "rax" then
                  .ok { st with code := st.code ++ [0x48, 0x05] ++ n }
                else if op0.literal = "rbx" then
                  .ok { st with code := st.code ++ [0x48, 0x81, 0xc3] ++ n }
                else if op0.literal = "rcx" then
                  .ok { st with code := st.code ++ [0x48, 0x81, 0xc1] ++ n }
                else if op0.literal = "rdx" then
                  .ok { st with code := st.code ++ [0x48, 0x81, 0xc2] ++ n }
                else .err ("add " ++ op0.literal ++ ", number not implemented") st
          else .err "unhandled ADD instruction" st := rfl

theorem lookupA_addCodes_none (a b : String) (ha : a ∉ gpRegs) :
    lookupA addCodes (a, b) = none := by
  simp only [gpRegs, List.mem_cons, List.not_mem_nil, or_false] at ha
  push_neg at ha
  obtain ⟨h1, h2, h3, h4⟩ := ha
  simp [addCodes, lookupA, Prod.mk.injEq, Ne.symm h1, Ne.symm h2, Ne.symm h3, Ne.symm h4]

theorem movRegNumber_gp (st : CompilerState) (r : String) (hr : r ∈ gpRegs) (D : Nat)
    (hD63 : D < 2 ^ 63) :
    ∃ pre : List Nat, pre.length = 3 ∧
      movRegNumber st r (decimalString D) false =
        .ok { st with code := st.code ++ pre ++ putUint32LE D } ∧
      movRegNumber st r (decimalString D) true =
        .ok { st with
              code := st.code ++ pre ++ putUint32LE D,
              patches := insertA st.patches (st.code.length + 3) ((D : Int)) } := by
  have hparse : goParseInt (decimalString D) = some ((D : Int)) := by
    rw [goParseInt_decimalString, if_pos hD63]
  have harg : argToByteArray (decimalString D) = .ok (putUint32LE D) := by
    unfold argToByteArray
    rw [hparse]
    show Except.ok (putUint32LE (uint32ofInt ((D : Int)))) = Except.ok (putUint32LE D)
    rw [uint32ofInt_natCast, putUint32LE_mod]
  have hatoi := goAtoi_decimalString D hD63
  simp only [gpRegs, List.mem_cons, List.not_mem_nil, or_false] at hr
  rcases hr with rfl | rfl | rfl | rfl
  · refine ⟨[0x48, 0xc7, 0xc0], rfl, ?_, ?_⟩ <;>
      (unfold movRegNumber; rw [if_pos rfl, harg, hatoi]; simp [List.length_append])
  · refine ⟨[0x48, 0xc7, 0xc3], rfl, ?_, ?_⟩ <;>
      (unfold movRegNumber; rw [if_neg (by decide), if_pos rfl, harg, hatoi];
       simp [List.length_append])
  · refine ⟨[0x48, 0xc7, 0xc1], rfl, ?_, ?_⟩ <;>
      (unfold movRegNumber;
       rw [if_neg (by decide), if_neg (by decide), if_pos rfl, harg, hatoi];
       simp [List.length_append])
  · refine ⟨[0x48, 0xc7, 0xc2], rfl, ?_, ?_⟩ <;>
      (unfold movRegNumber;
       rw [if_neg (by decide), if_neg (by decide), if_neg (by decide), if_pos rfl, harg, hatoi];
       simp [List.length_append])

theorem mov_reg_ident_ok (st : CompilerState) (r id : String) (st1 : CompilerState) (D : Nat)
    (hD : lookupA st.dataOffsets id = some D)
    (h : compileInstruction st "mov"
        [⟨TokenType.REGISTER, r⟩, ⟨TokenType.IDENTIFIER, id⟩] = .ok st1) :
    D < 2 ^ 63 ∧ ∃ pre : List Nat, pre.length = 3 ∧
      st1 = { st with
              code := st.code ++ pre ++ putUint32LE D,
              patches := insertA st.patches (st.code.length + 3) ((D : Int)) } := by
  rw [compileInstruction_mov_ident, hD] at h
  obtain ⟨pre, w, hpre, hw, hcase⟩ := movRegNumber_ok _ _ _ _ _ h
  rw [goParseInt_decimalString] at hw
  by_cases hv : D < 2 ^ 63
  · rw [if_pos hv] at hw
    injection hw with hw2
    rcases hcase with ⟨hbad, _⟩ | ⟨_, heq⟩
    · exact Bool.noConfusion hbad
    · refine ⟨hv, pre, hpre, ?_⟩
      rw [heq, ← hw2, uint32ofInt_natCast, putUint32LE_mod, goAtoi_decimalString D hv]
  · rw [if_neg hv] at hw
    cases hw

/-! ### The claims -/

/-- C1: for every compilation in which `mydata` is declared at data offset
`D`, a `mov rax, mydata` records a data patch whose 4 placeholder bytes
are overwritten by resolution with the little-endian encoding of
`loadBase + D + L + headerSize`, where `L` is the final code length,
`loadBase = 0x400000` and `headerSize = 0x40 + 2*0x38`. -/
theorem c1_data_patch_resolution (p1 p2 : List Stmt) (st st2 stf : CompilerState) (D : Nat)
    (h1 : compileStmts p1 initState = .ok st)
    (hD : lookupA st.dataOffsets "mydata" = some D)
    (h2 : compileStmts
        (Stmt.instruction "mov"
          [⟨TokenType.REGISTER, "rax"⟩, ⟨TokenType.IDENTIFIER, "mydata"⟩] :: p2) st = .ok st2)
    (h3 : resolve st2 = some stf) :
    window stf.code (st.code.length + 3) =
      putUint32LE (0x400000 + D + st2.code.length + 0x40 + 2 * 0x38) := by
  have hI : Inv st := (compileStmts_inv p1 initState st inv_init h1).1
  simp only [compileStmts] at h2
  cases hc : compileInstruction st "mov"
      [⟨TokenType.REGISTER, "rax"⟩, ⟨TokenType.IDENTIFIER, "mydata"⟩] with
  | ok st1 =>
      rw [hc] at h2
      obtain ⟨hD63, pre, hpre, hst1⟩ := mov_reg_ident_ok st "rax" "mydata" st1 D hD hc
      have hfresh := patch_key_fresh st hI (st.code.length + 3) (by omega)
      have hmem1 : (st.code.length + 3, (D : Int)) ∈ st1.patches := by
        rw [hst1]
        show (st.code.length + 3, (D : Int)) ∈ insertA st.patches (st.code.length + 3) ((D : Int))
        rw [insertA_of_not_mem _ _ _ hfresh]
        exact List.mem_append_right _ (List.mem_singleton.mpr rfl)
      have hI1 : Inv st1 := by
        rw [hst1]
        exact inv_data_patch st pre D hpre hI
      obtain ⟨hI2, _, hmono, _⟩ := compileStmts_inv p2 st1 st2 hI1 h2
      have hmem2 := hmono _ hmem1
      obtain ⟨stf', hres, _, _, _, _, _, _, hdwin, _⟩ := resolve_spec st2 hI2
      rw [h3] at hres
      injection hres with hres2
      subst hres2
      have hwin := hdwin _ hmem2
      rw [hwin]
      rw [show ((0x400000 : Int) + ((D : Nat) : Int) + ((st2.code.length : Nat) : Int)
            + 0x40 + 2 * 0x38)
          = (((0x400000 + D + st2.code.length + 0x40 + 2 * 0x38 : Nat)) : Int) by
        push_cast
        ring]
      rw [leUint32OfInt_natCast]
  | err m s => rw [hc] at h2; cases h2
  | panic => rw [hc] at h2; cases h2

theorem c1_witness :
    window [0x48, 0xc7, 0xc0, 185, 0, 64, 0] (([] : List Nat).length + 3) =
      putUint32LE (0x400000 + 2 + 7 + 0x40 + 2 * 0x38) :=
  c1_data_patch_resolution
    [Stmt.data "pad" [1, 2], Stmt.data "mydata" [3]] []
    { code := [], data := [1, 2, 3], dataOffsets := [("pad", 0), ("mydata", 2)],
      patches := [], labels := [], labelTargets := [] }
    { code := [0x48, 0xc7, 0xc0, 2, 0, 0, 0], data := [1, 2, 3],
      dataOffsets := [("pad", 0), ("mydata", 2)], patches := [(3, 2)],
      labels := [], labelTargets := [] }
    { code := [0x48, 0xc7, 0xc0, 185, 0, 64, 0], data := [1, 2, 3],
      dataOffsets := [("pad", 0), ("mydata", 2)], patches := [(3, 2)],
      labels := [], labelTargets := [] }
    2 (by decide) (by decide) (by decide) (by decide)

/-- C2: for every compilation containing `push mylabel` where `mylabel`
is defined (before or after the push) at code offset `K`, resolution
overwrites the 4 zero placeholder bytes after the push opcode with the
little-endian encoding of `loadBase + K + headerSize`, with no
code-length term. -/
theorem c2_label_patch_resolution (p1 p2 : List Stmt) (st st2 stf : CompilerState) (K : Nat)
    (h1 : compileStmts p1 initState = .ok st)
    (h2 : compileStmts
        (Stmt.instruction "push" [⟨TokenType.IDENTIFIER, "mylabel"⟩] :: p2) st = .ok st2)
    (hK : lookupA st2.labels "mylabel" = some K)
    (h3 : resolve st2 = some stf) :
    window stf.code (st.code.length + 1) =
      putUint32LE (0x400000 + K + 0x40 + 2 * 0x38) := by
  have hI : Inv st := (compileStmts_inv p1 initState st inv_init h1).1
  simp only [compileStmts] at h2
  cases hc : compileInstruction st "push" [⟨TokenType.IDENTIFIER, "mylabel"⟩] with
  | ok st1 =>
      rw [hc] at h2
      have hpe := push_ident_eq st "mylabel"
      rw [hc] at hpe
      injection hpe with hst1
      have hfresh := target_key_fresh st hI (st.code.length + 1) (by omega)
      have hmem1 : (st.code.length + 1, "mylabel") ∈ st1.labelTargets := by
        rw [hst1]
        show (st.code.length + 1, "mylabel") ∈
          insertA st.labelTargets (st.code.length + 1) "mylabel"
        rw [insertA_of_not_mem _ _ _ hfresh]
        exact List.mem_append_right _ (List.mem_singleton.mpr rfl)
      have hI1 : Inv st1 := by
        rw [hst1]
        exact inv_label_patch st "mylabel" hI
      obtain ⟨hI2, _, _, hmono⟩ := compileStmts_inv p2 st1 st2 hI1 h2
      have hmem2 := hmono _ hmem1
      obtain ⟨stf', hres, _, _, _, _, _, _, _, hlwin⟩ := resolve_spec st2 hI2
      rw [h3] at hres
      injection hres with hres2
      subst hres2
      have hwin := hlwin _ hmem2
      rw [hwin]
      show putUint32LE (0x400000 + (lookupA st2.labels "mylabel").getD 0 + 0x40 + 2 * 0x38) = _
      rw [hK]
      rfl
  | err m s => rw [hc] at h2; cases h2
  | panic => rw [hc] at h2; cases h2

theorem c2_witness :
    window [0x68, 181, 0, 64, 0] (([] : List Nat).length + 1) =
      putUint32LE (0x400000 + 5 + 0x40 + 2 * 0x38) :=
  c2_label_patch_resolution [] [Stmt.label "mylabel"]
    initState
    { code := [0x68, 0, 0, 0, 0], data := [], dataOffsets := [],
      patches := [], labels := [("mylabel", 5)], labelTargets := [(1, "mylabel")] }
    { code := [0x68, 181, 0, 64, 0], data := [], dataOffsets := [],
      patches := [], labels := [("mylabel", 5)], labelTargets := [(1, "mylabel")] }
    5 (by decide) (by decide) (by decide) (by decide)

/-- C5 as stated is false: a data-reference patch's placeholder bytes
are the little-endian encoding of the data offset, which is non-zero
for a data block that does not sit at offset 0.  Concretely, compiling
`pad` (2 bytes), `mydata` and `mov rax, mydata` leaves the patch window
holding `02 00 00 00`. -/
theorem c5_counterexample :
    ¬ (∀ (prog : List Stmt) (st : CompilerState), compileStmts prog initState = .ok st →
        (∀ p ∈ st.patches, window st.code p.1 = [0x0, 0x0, 0x0, 0x0]) ∧
        (∀ p ∈ st.labelTargets, window st.code p.1 = [0x0, 0x0, 0x0, 0x0])) := by
  intro hclaim
  have h := hclaim
    [Stmt.data "pad" [1, 2], Stmt.data "mydata" [3],
     Stmt.instruction "mov" [⟨TokenType.REGISTER, "rax"⟩, ⟨TokenType.IDENTIFIER, "mydata"⟩]]
    { code := [0x48, 0xc7, 0xc0, 2, 0, 0, 0], data := [1, 2, 3],
      dataOffsets := [("pad", 0), ("mydata", 2)], patches := [(3, 2)],
      labels := [], labelTargets := [] }
    (by decide)
  exact absurd (h.1 (3, 2) (by decide)) (by decide)

/-- C5, amended: at the moment patch resolution begins, every
label-reference patch's 4 bytes are zero placeholders, while every
data-reference patch's 4 bytes hold the little-endian `uint32` encoding
of its stored data offset (zero only when that offset is zero). -/
theorem c5_amended_placeholders (prog : List Stmt) (st : CompilerState)
    (h : compileStmts prog initState = .ok st) :
    (∀ p ∈ st.labelTargets, window st.code p.1 = [0x0, 0x0, 0x0, 0x0]) ∧
    (∀ p ∈ st.patches, window st.code p.1 = leUint32OfInt p.2) :=
  have hI : Inv st := (compileStmts_inv prog initState st inv_init h).1
  ⟨hI.labelWin, hI.dataWin⟩

theorem c5_amended_witness :
    (∀ p ∈ ([(1, "mylabel")] : List (Nat × String)),
      window [0x68, 0, 0, 0, 0] p.1 = [0x0, 0x0, 0x0, 0x0]) ∧
    (∀ p ∈ ([] : List (Nat × Int)), window [0x68, 0, 0, 0, 0] p.1 = leUint32OfInt p.2) :=
  c5_amended_placeholders [Stmt.instruction "push" [⟨TokenType.IDENTIFIER, "mylabel"⟩]]
    { code := [0x68, 0, 0, 0, 0], data := [], dataOffsets := [],
      patches := [], labels := [], labelTargets := [(1, "mylabel")] }
    (by decide)

/-- C6: a label-reference patch whose name is absent from the label
table does not make resolution fail; it is resolved against offset 0,
writing the little-endian encoding of `loadBase + 0 + headerSize`. -/
theorem c6_missing_label_resolves_zero (prog : List Stmt) (st : CompilerState)
    (o : Nat) (name : String)
    (h1 : compileStmts prog initState = .ok st)
    (hmem : (o, name) ∈ st.labelTargets)
    (habs : lookupA st.labels name = none) :
    ∃ stf, resolve st = some stf ∧
      window stf.code o = putUint32LE (0x400000 + 0 + 0x40 + 2 * 0x38) := by
  have hI : Inv st := (compileStmts_inv prog initState st inv_init h1).1
  obtain ⟨stf, hres, _, _, _, _, _, _, _, hlwin⟩ := resolve_spec st hI
  refine ⟨stf, hres, ?_⟩
  have hwin := hlwin (o, name) hmem
  rw [habs] at hwin
  exact hwin

theorem c6_witness :
    ∃ stf, resolve
        { code := [0x68, 0, 0, 0, 0], data := [], dataOffsets := [],
          patches := [], labels := [], labelTargets := [(1, "ghost")] } = some stf ∧
      window stf.code 1 = putUint32LE (0x400000 + 0 + 0x40 + 2 * 0x38) :=
  c6_missing_label_resolves_zero
    [Stmt.instruction "push" [⟨TokenType.IDENTIFIER, "ghost"⟩]]
    { code := [0x68, 0, 0, 0, 0], data := [], dataOffsets := [],
      patches := [], labels := [], labelTargets := [(1, "ghost")] }
    1 "ghost" (by decide) (by decide) (by decide)

/-- C9: every patch offset recorded during compilation satisfies
`o + 4 ≤ len(code)` for the final code buffer, so every 4-byte
overwrite during resolution is in bounds. -/
theorem c9_patch_offsets_in_bounds (prog : List Stmt) (st : CompilerState)
    (h : compileStmts prog initState = .ok st) :
    ∀ o ∈ allPatchOffsets st, o + 4 ≤ st.code.length :=
  ((compileStmts_inv prog initState st inv_init h).1).bounds

theorem c9_witness :
    (1 : Nat) + 4 ≤ ([0x68, 0, 0, 0, 0] : List Nat).length :=
  c9_patch_offsets_in_bounds
    [Stmt.instruction "push" [⟨TokenType.IDENTIFIER, "ghost"⟩]]
    { code := [0x68, 0, 0, 0, 0], data := [], dataOffsets := [],
      patches := [], labels := [], labelTargets := [(1, "ghost")] }
    (by decide) 1 (by decide)

/-- C3: for every ordered pair of the four registers, `add r, s` and
`sub r, s` append the fixed 3-byte sequence of the respective table, and
the 16 entries of each table are pairwise distinct. -/
theorem c3_add_sub_tables :
    (∀ (st : CompilerState) (r s : String), r ∈ gpRegs → s ∈ gpRegs →
      ∃ bsa bss : List Nat,
        lookupA addCodes (r, s) = some bsa ∧ lookupA subCodes (r, s) = some bss ∧
        bsa.length = 3 ∧ bss.length = 3 ∧
        compileInstruction st "add" [⟨TokenType.REGISTER, r⟩, ⟨TokenType.REGISTER, s⟩] =
          .ok { st with code := st.code ++ bsa } ∧
        compileInstruction st "sub" [⟨TokenType.REGISTER, r⟩, ⟨TokenType.REGISTER, s⟩] =
          .ok { st with code := st.code ++ bss }) ∧
    (∀ p ∈ gpRegs.product gpRegs, ∀ q ∈ gpRegs.product gpRegs, p ≠ q →
      lookupA addCodes p ≠ lookupA addCodes q) ∧
    (∀ p ∈ gpRegs.product gpRegs, ∀ q ∈ gpRegs.product gpRegs, p ≠ q →
      lookupA subCodes p ≠ lookupA subCodes q) := by
  refine ⟨?_, by decide, by decide⟩
  intro st r s hr hs
  simp only [gpRegs, List.mem_cons, List.not_mem_nil, or_false] at hr hs
  rcases hr with rfl | rfl | rfl | rfl <;> rcases hs with rfl | rfl | rfl | rfl <;>
    exact ⟨_, _, rfl, rfl, rfl, rfl, rfl, rfl⟩

theorem c3_witness :
    ∃ bsa bss : List Nat,
      lookupA addCodes ("rax", "rbx") = some bsa ∧
      lookupA subCodes ("rax", "rbx") = some bss ∧
      bsa.length = 3 ∧ bss.length = 3 ∧
      compileInstruction initState "add"
        [⟨TokenType.REGISTER, "rax"⟩, ⟨TokenType.REGISTER, "rbx"⟩] =
        .ok { initState with code := initState.code ++ bsa } ∧
      compileInstruction initState "sub"
        [⟨TokenType.REGISTER, "rax"⟩, ⟨TokenType.REGISTER, "rbx"⟩] =
        .ok { initState with code := initState.code ++ bss } :=
  c3_add_sub_tables.1 initState "rax" "rbx" (by decide) (by decide)

/-- C4: the claim says `push` with a single immediate operand appends
`0x68` followed by the 4-byte little-endian immediate and returns no
error; the code instead reads `i.Operands[1]`, which for a one-operand
`push` is an out-of-range slice index, i.e. a runtime panic.  This
theorem evaluates the code at the failing input `push 0x1234`. -/
theorem c4_push_immediate_panics :
    compileStmts [Stmt.instruction "push" [⟨TokenType.NUMBER, "0x1234"⟩]] initState =
      .panic := by decide

/-- C7: an `add` whose first operand is not one of the four supported
registers always errors; an `add` whose operand pair misses the table
and is not of register-number shape errors; and every `add` error leaves
the compiler state (in particular the code buffer) exactly unchanged. -/
theorem c7_add_error_no_partial_emission :
    (∀ (st : CompilerState) (ops : List Token) (op0 op1 : Token),
        ops.get? 0 = some op0 → ops.get? 1 = some op1 → op0.literal ∉ gpRegs →
        ∃ msg, compileInstruction st "add" ops = .err msg st) ∧
    (∀ (st : CompilerState) (ops : List Token) (op0 op1 : Token),
        ops.get? 0 = some op0 → ops.get? 1 = some op1 →
        lookupA addCodes (op0.literal, op1.literal) = none →
        ¬(op0.type = TokenType.REGISTER ∧ op1.type = TokenType.NUMBER) →
        ∃ msg, compileInstruction st "add" ops = .err msg st) ∧
    (∀ (st st' : CompilerState) (ops : List Token) (msg : String),
        compileInstruction st "add" ops = .err msg st' → st' = st) := by
  refine ⟨?_, ?_, ?_⟩
  · intro st ops op0 op1 h0 h1 hlit
    cases ops with
    | nil => cases h0
    | cons a tail =>
        cases tail with
        | nil => cases h1
        | cons b t =>
            have ha : a = op0 := by simpa using h0
            have hb : b = op1 := by simpa using h1
            subst ha
            subst hb
            rw [compileInstruction_add, assembleADD_cons,
                lookupA_addCodes_none _ _ hlit]
            have hne : a.literal ≠ "rax" ∧ a.literal ≠ "rbx" ∧
                a.literal ≠ "rcx" ∧ a.literal ≠ "rdx" := by
              simp only [gpRegs, List.mem_cons, List.not_mem_nil, or_false] at hlit
              push_neg at hlit
              exact hlit
            by_cases hsh : a.type = TokenType.REGISTER ∧ b.type = TokenType.NUMBER
            · cases hab : argToByteArray b.literal with
              | error e =>
                  refine ⟨e, ?_⟩
                  simp only [if_pos hsh, hab]
              | ok n =>
                  refine ⟨"add " ++ a.literal ++ ", number not implemented", ?_⟩
                  simp only [if_pos hsh, hab, if_neg hne.1, if_neg hne.2.1,
                    if_neg hne.2.2.1, if_neg hne.2.2.2]
            · exact ⟨"unhandled ADD instruction", by simp only [if_neg hsh]⟩
  · intro st ops op0 op1 h0 h1 hl hsh
    cases ops with
    | nil => cases h0
    | cons a tail =>
        cases tail with
        | nil => cases h1
        | cons b t =>
            have ha : a = op0 := by simpa using h0
            have hb : b = op1 := by simpa using h1
            subst ha
            subst hb
            rw [compileInstruction_add, assembleADD_cons, hl]
            exact ⟨"unhandled ADD instruction", by simp only [if_neg hsh]⟩
  · intro st st' ops msg h
    rw [compileInstruction_add] at h
    cases ops with
    | nil => exact StepResult.noConfusion (show StepResult.panic = StepResult.err msg st' from h)
    | cons a tail =>
        cases tail with
        | nil =>
            exact StepResult.noConfusion (show StepResult.panic = StepResult.err msg st' from h)
        | cons b t =>
            rw [assembleADD_cons] at h
            split at h
            · cases h
            · split at h
              · split at h
                · injection h with hmsg hst
                  exact hst.symm
                · split_ifs at h
                  injection h with hmsg hst
                  exact hst.symm
              · injection h with hmsg hst
                exact hst.symm

theorem c7_witness :
    ∃ msg, compileInstruction initState "add"
        [⟨TokenType.REGISTER, "rsi"⟩, ⟨TokenType.REGISTER, "rax"⟩] =
      .err msg initState :=
  c7_add_error_no_partial_emission.1 initState
    [⟨TokenType.REGISTER, "rsi"⟩, ⟨TokenType.REGISTER, "rax"⟩]
    ⟨TokenType.REGISTER, "rsi"⟩ ⟨TokenType.REGISTER, "rax"⟩ rfl rfl (by decide)

/-- C8: compilation is deterministic; in particular patch resolution
writes the same final code and data buffers whatever iteration order the
two patch maps are visited in, so two runs over identical statement
streams produce byte-identical buffers. -/
theorem c8_resolution_order_independent (prog : List Stmt) (st : CompilerState)
    (ps1 ps2 : List (Nat × Int)) (ts1 ts2 : List (Nat × String))
    (h : compileStmts prog initState = .ok st)
    (hp1 : ps1.Perm st.patches) (ht1 : ts1.Perm st.labelTargets)
    (hp2 : ps2.Perm st.patches) (ht2 : ts2.Perm st.labelTargets) :
    resolveWith st ps1 ts1 = resolveWith st ps2 ts2 := by
  have hI : Inv st := (compileStmts_inv prog initState st inv_init h).1
  rw [resolveWith_perm st hI ps1 ts1 hp1 ht1, resolveWith_perm st hI ps2 ts2 hp2 ht2]

theorem c8_witness :
    resolveWith
      { code := [0x48, 0xc7, 0xc0, 0, 0, 0, 0, 0x48, 0xc7, 0xc3, 0, 0, 0, 0, 0x68, 0, 0, 0, 0],
        data := [9], dataOffsets := [("a", 0)], patches := [(3, 0), (10, 0)],
        labels := [("L", 19)], labelTargets := [(15, "L")] }
      [(10, 0), (3, 0)] [(15, "L")] =
    resolveWith
      { code := [0x48, 0xc7, 0xc0, 0, 0, 0, 0, 0x48, 0xc7, 0xc3, 0, 0, 0, 0, 0x68, 0, 0, 0, 0],
        data := [9], dataOffsets := [("a", 0)], patches := [(3, 0), (10, 0)],
        labels := [("L", 19)], labelTargets := [(15, "L")] }
      [(3, 0), (10, 0)] [(15, "L")] :=
  c8_resolution_order_independent
    [Stmt.data "a" [9],
     Stmt.instruction "mov" [⟨TokenType.REGISTER, "rax"⟩, ⟨TokenType.IDENTIFIER, "a"⟩],
     Stmt.instruction "mov" [⟨TokenType.REGISTER, "rbx"⟩, ⟨TokenType.IDENTIFIER, "a"⟩],
     Stmt.instruction "push" [⟨TokenType.IDENTIFIER, "L"⟩],
     Stmt.label "L"]
    { code := [0x48, 0xc7, 0xc0, 0, 0, 0, 0, 0x48, 0xc7, 0xc3, 0, 0, 0, 0, 0x68, 0, 0, 0, 0],
      data := [9], dataOffsets := [("a", 0)], patches := [(3, 0), (10, 0)],
      labels := [("L", 19)], labelTargets := [(15, "L")] }
    [(10, 0), (3, 0)] [(3, 0), (10, 0)] [(15, "L")] [(15, "L")]
    (by decide) (by decide) (by decide) (by decide) (by decide)

/-- C10: `mov r, id` with `id` bound to data offset `D` emits exactly
the bytes of `mov r, <decimal text of D>` (the identifier is rewritten
to the offset's decimal text and re-encoded), and the recorded patch
stores exactly the value `D`: the decimal print/parse round trip of the
offset is the identity. -/
theorem c10_identifier_rewrites_to_decimal (st : CompilerState) (r id : String) (D : Nat)
    (hD : lookupA st.dataOffsets id = some D) (hD63 : D < 2 ^ 63) (hr : r ∈ gpRegs) :
    ∃ pre : List Nat, pre.length = 3 ∧
      compileInstruction st "mov"
          [⟨TokenType.REGISTER, r⟩, ⟨TokenType.NUMBER, decimalString D⟩] =
        .ok { st with code := st.code ++ pre ++ putUint32LE D } ∧
      compileInstruction st "mov" [⟨TokenType.REGISTER, r⟩, ⟨TokenType.IDENTIFIER, id⟩] =
        .ok { st with
              code := st.code ++ pre ++ putUint32LE D,
              patches := insertA st.patches (st.code.length + 3) ((D : Int)) } := by
  obtain ⟨pre, hpre, hfalse, htrue⟩ := movRegNumber_gp st r hr D hD63
  refine ⟨pre, hpre, ?_, ?_⟩
  · rw [compileInstruction_mov_regnum, hfalse]
  · rw [compileInstruction_mov_ident, hD]
    show movRegNumber st r (decimalString D) true = _
    rw [htrue]

theorem c10_witness :
    ∃ pre : List Nat, pre.length = 3 ∧
      compileInstruction
          { code := [], data := [], dataOffsets := [("x", 5)], patches := [],
            labels := [], labelTargets := [] }
          "mov" [⟨TokenType.REGISTER, "rax"⟩, ⟨TokenType.NUMBER, decimalString 5⟩] =
        .ok { code := ([] : List Nat) ++ pre ++ putUint32LE 5, data := [],
              dataOffsets := [("x", 5)], patches := [], labels := [], labelTargets := [] } ∧
      compileInstruction
          { code := [], data := [], dataOffsets := [("x", 5)], patches := [],
            labels := [], labelTargets := [] }
          "mov" [⟨TokenType.REGISTER, "rax"⟩, ⟨TokenType.IDENTIFIER, "x"⟩] =
        .ok { code := ([] : List Nat) ++ pre ++ putUint32LE 5, data := [],
              dataOffsets := [("x", 5)],
              patches := insertA [] (([] : List Nat).length + 3) ((5 : Nat) : Int),
              labels := [], labelTargets := [] } :=
  c10_identifier_rewrites_to_decimal
    { code := [], data := [], dataOffsets := [("x", 5)], patches := [],
      labels := [], labelTargets := [] }
    "rax" "x" 5 rfl (by decide) (by decide)

end Assembler
